import Mathlib

/-!
# Pseudo3D: ray casting and projection (`src/script.js`)

A shallow embedding of the game logic of `script.js` and the properties of its
ray caster, projection and movement code.

## Number model

JavaScript numbers are modelled by `JSNum K`: the elements of an ordered field `K`
together with the three non-finite values `Infinity`, `-Infinity` and `NaN`. The
arithmetic and the comparisons on non-finite values follow IEEE-754 as JavaScript
implements it. The sign of a zero is not modelled: a zero divisor behaves as `+0`.

The finite result of `+`, `-`, `*` and `/` is rounded by `Rounding.round`. Two roundings
are given:

* `Rounding.exact`, the default on every field: no rounding, the arithmetic of the real
  numbers;
* the rounding of `Double`, the binary64 numbers of JavaScript: round to nearest, ties
  to even, 53 bits, with the subnormal numbers and the overflow to an infinity.

`Math.cos`, `Math.sin` and `Math.sqrt` are given on finite arguments by parameters
`cos sin sqrt : K → K`, and `Math.PI` by a parameter `pi : K`, so that every
definition is executable over `ℚ` and `Double` and can be read over `ℝ` with the real
functions.
-/

namespace Pseudo3D

/-! ## JavaScript numbers -/

/-- A JavaScript number: a finite value, `Infinity`, `-Infinity` or `NaN`. -/
inductive JSNum (K : Type) where
  | fin : K → JSNum K
  | posInf : JSNum K
  | negInf : JSNum K
  | nan : JSNum K
  deriving DecidableEq

/-- The rounding of the exact finite result of an arithmetic operation to a number. -/
class Rounding (K : Type) where
  /-- The number that stands for the exact result. -/
  round : K → JSNum K

namespace JSNum

section Order

variable {K : Type} [LinearOrderedField K]

/-- The infinity of the given sign (`true` for `Infinity`). -/
def inf : Bool → JSNum K
  | true => posInf
  | false => negInf

/-- An infinity of sign `pos` multiplied by the finite value `a`; `0 * Infinity` is
`NaN`. -/
def mulInf (pos : Bool) (a : K) : JSNum K :=
  if a = 0 then nan else if 0 < a then inf pos else inf (!pos)

/-- The comparison `a < b`; false as soon as one side is `NaN`. -/
def lt : JSNum K → JSNum K → Bool
  | fin a, fin b => decide (a < b)
  | nan, _ => false
  | _, nan => false
  | negInf, negInf => false
  | negInf, _ => true
  | posInf, _ => false
  | fin _, posInf => true
  | fin _, negInf => false

/-- The comparison `a <= b`; false as soon as one side is `NaN`. -/
def le : JSNum K → JSNum K → Bool
  | fin a, fin b => decide (a ≤ b)
  | nan, _ => false
  | _, nan => false
  | negInf, _ => true
  | _, posInf => true
  | posInf, _ => false
  | fin _, negInf => false

/-- The comparison `a >= b`. -/
def ge (a b : JSNum K) : Bool := le b a

/-- The function `Math.sqrt`, from the square root `sqrt` of the non-negative finite
values: `NaN` on negative arguments. -/
def sqrt (sqrt : K → K) : JSNum K → JSNum K
  | fin a => if a < 0 then nan else fin (sqrt a)
  | posInf => posInf
  | _ => nan

/-- The functions `Math.cos` and `Math.sin`, from their values `f` on the finite
arguments: `NaN` on every non-finite argument. -/
def trig (f : K → K) : JSNum K → JSNum K
  | fin a => fin (f a)
  | _ => nan

end Order

section Arith

variable {K : Type} [LinearOrderedField K] [Rounding K]

/-- The operator `+` on numbers. -/
def add : JSNum K → JSNum K → JSNum K
  | fin a, fin b => Rounding.round (a + b)
  | nan, _ => nan
  | _, nan => nan
  | posInf, negInf => nan
  | negInf, posInf => nan
  | posInf, _ => posInf
  | _, posInf => posInf
  | negInf, _ => negInf
  | _, negInf => negInf

/-- The operator `-` on numbers. -/
def sub : JSNum K → JSNum K → JSNum K
  | fin a, fin b => Rounding.round (a - b)
  | nan, _ => nan
  | _, nan => nan
  | posInf, posInf => nan
  | negInf, negInf => nan
  | posInf, _ => posInf
  | _, negInf => posInf
  | negInf, _ => negInf
  | _, posInf => negInf

/-- The operator `*` on numbers. -/
def mul : JSNum K → JSNum K → JSNum K
  | fin a, fin b => Rounding.round (a * b)
  | nan, _ => nan
  | _, nan => nan
  | fin a, posInf => mulInf true a
  | fin a, negInf => mulInf false a
  | posInf, fin b => mulInf true b
  | negInf, fin b => mulInf false b
  | posInf, posInf => posInf
  | negInf, negInf => posInf
  | posInf, negInf => negInf
  | negInf, posInf => negInf

/-- The operator `/` on numbers. A finite non-zero value divided by zero is an
infinity, `0 / 0` is `NaN`, a finite value divided by an infinity is zero. -/
def div : JSNum K → JSNum K → JSNum K
  | fin a, fin b =>
    if b = 0 then (if a = 0 then nan else if 0 < a then posInf else negInf)
    else Rounding.round (a / b)
  | nan, _ => nan
  | _, nan => nan
  | fin _, _ => fin 0
  | posInf, fin b => if 0 ≤ b then posInf else negInf
  | negInf, fin b => if 0 ≤ b then negInf else posInf
  | _, _ => nan

instance : Add (JSNum K) := ⟨add⟩
instance : Sub (JSNum K) := ⟨sub⟩
instance : Mul (JSNum K) := ⟨mul⟩
instance : Div (JSNum K) := ⟨div⟩

/-- The expression `a ** 2`. -/
def sq (a : JSNum K) : JSNum K := a * a

/-- A number literal of the source with the decimal value `q`. -/
def lit (q : K) : JSNum K := Rounding.round q

end Arith

end JSNum

/-! ## Data -/

/-- A point object `{ x, y }`. -/
structure Point (K : Type) where
  x : JSNum K
  y : JSNum K
  deriving DecidableEq

/-- A wall or a ray: the two-element array `[P, Q]` of its end points. -/
abbrev Segment (K : Type) := Point K × Point K

/-- The object `{ x, y, r }` that `getIntersectionPoint` returns for a hit. -/
structure Intersection (K : Type) where
  x : JSNum K
  y : JSNum K
  r : JSNum K
  deriving DecidableEq

/-- The object `gameSettings`. -/
structure GameSettings (K : Type) where
  mapWidth : JSNum K
  mapHeight : JSNum K
  screenWidth : JSNum K
  screenHeight : JSNum K
  playerMoveSpeed : JSNum K
  playerRotateSpeed : JSNum K
  playerSightDistance : JSNum K
  playerSightAngle : JSNum K
  raysCount : ℕ
  zoom : JSNum K
  walls : List (Segment K)

/-- The object `gameState.player`. -/
structure Player (K : Type) where
  position : Point K
  angle : JSNum K

/-- The object `gameState`; a slot of `intersections` is `none` for `null`. -/
structure GameState (K : Type) where
  player : Player K
  rays : List (Segment K)
  intersections : List (Option (Intersection K))

/-- The key codes that `handlePlayerMovement` tells apart; `other` is every code
without a `case`. -/
inductive KeyCode where
  | ArrowUp | ArrowDown | ArrowLeft | ArrowRight | other
  deriving DecidableEq

/-- The arguments of one call `screenCtx.fillRect(x, y, w, h)` of `draw3DFrame`,
with the three channels of the `rgb(...)` fill style that is set before it. -/
structure Strip (K : Type) where
  red : JSNum K
  green : JSNum K
  blue : JSNum K
  x : JSNum K
  y : JSNum K
  width : JSNum K
  height : JSNum K

section Geometry

variable {K : Type} [LinearOrderedField K]

open JSNum

/-- A point with finite coordinates. -/
def pt (x y : K) : Point K := ⟨fin x, fin y⟩

/-- The segment between two points with finite coordinates. -/
def seg (P Q : K × K) : Segment K := (pt P.1 P.2, pt Q.1 Q.2)

/-- The value of `angle` in the iteration `i` of the loop of `generateRays`, for the
finite player angle `a`, sight angle `f` and the rays count `N`. -/
def rayAngle (a f : K) (N i : ℕ) : K :=
  a - f / 2 + (i : K) * (f / (N : K))

/-- The segments of a list of pairs of points with finite coordinates. -/
def segs (l : List ((K × K) × (K × K))) : List (Segment K) :=
  l.map fun w => seg w.1 w.2

/-- The value of `denominator` in `getIntersectionPoint` on finite end points. -/
def denominator (A B C D : K × K) : K :=
  (D.1 - C.1) * (B.2 - A.2) - (B.1 - A.1) * (D.2 - C.2)

/-- The value of `r`, the parameter on the ray, when the denominator is not zero. -/
def rayParam (A B C D : K × K) : K :=
  ((B.1 - A.1) * (C.2 - A.2) - (C.1 - A.1) * (B.2 - A.2)) / denominator A B C D

/-- The value of `s`, the parameter on the wall, when the denominator is not zero. -/
def wallParam (A B C D : K × K) : K :=
  ((A.1 - C.1) * (D.2 - C.2) - (D.1 - C.1) * (A.2 - C.2)) / denominator A B C D

/-- The segments `[A, B]` and `[C, D]` meet at the parameters `t` on `[A, B]` and `u`
on `[C, D]`: `A + t (B - A) = C + u (D - C)`. -/
def MeetAt (A B C D : K × K) (t u : K) : Prop :=
  A.1 + t * (B.1 - A.1) = C.1 + u * (D.1 - C.1) ∧
  A.2 + t * (B.2 - A.2) = C.2 + u * (D.2 - C.2)

instance (A B C D : K × K) (t u : K) : Decidable (MeetAt A B C D t u) := by
  unfold MeetAt
  infer_instance

/-- The callback of the `reduce` of `findIntersections`. -/
def closer (prev curr : Intersection K) : Intersection K :=
  if lt curr.r prev.r then curr else prev

/-- The method `reduce` without an initial value, on a non-empty array; `none` on
the empty array, on which `findIntersections` does not call it. -/
def reduce {α : Type} (f : α → α → α) : List α → Option α
  | [] => none
  | a :: as => some (as.foldl f a)

end Geometry

section Code

variable {K : Type} [LinearOrderedField K] [Rounding K]

open JSNum

/-- The value of `denominator` in `getIntersectionPoint`, as the code computes it. -/
def computedDenominator (wall ray : Segment K) : JSNum K :=
  (ray.2.x - ray.1.x) * (wall.2.y - wall.1.y) - (wall.2.x - wall.1.x) * (ray.2.y - ray.1.y)

/-- The value of `r` in `getIntersectionPoint`, as the code computes it. -/
def computedR (wall ray : Segment K) : JSNum K :=
  ((wall.2.x - wall.1.x) * (ray.1.y - wall.1.y) - (ray.1.x - wall.1.x) * (wall.2.y - wall.1.y))
    / computedDenominator wall ray

/-- The value of `s` in `getIntersectionPoint`, as the code computes it. -/
def computedS (wall ray : Segment K) : JSNum K :=
  ((wall.1.x - ray.1.x) * (ray.2.y - ray.1.y) - (ray.2.x - ray.1.x) * (wall.1.y - ray.1.y))
    / computedDenominator wall ray

/-- The value of `gameSettings` in the source. -/
def gameSettings (pi : K) : GameSettings K where
  mapWidth := fin 300
  mapHeight := fin 300
  screenWidth := fin 300
  screenHeight := fin 200
  playerMoveSpeed := fin 2
  playerRotateSpeed := lit (2 / 100) * fin pi
  playerSightDistance := fin 250
  playerSightAngle := lit (27 / 100) * fin pi
  raysCount := 100
  zoom := fin 25
  walls :=
    [ (pt 0 0, pt 0 300),
      (pt 0 0, pt 300 0),
      (pt 300 0, pt 300 300),
      (pt 0 300, pt 300 300),
      (pt 100 150, pt 200 150),
      (pt 100 120, pt 100 150),
      (pt 0 180, pt 50 180),
      (pt 0 100, pt 50 180) ]

/-- The initial value of `gameState` in the source. -/
def gameState (pi : K) : GameState K where
  player := { position := pt 75 100, angle := lit (15 / 10) * fin pi }
  rays := []
  intersections := []

/-- The function `calculateDistance`. -/
def calculateDistance (sqrt : K → K) (A B : Point K) : JSNum K :=
  JSNum.sqrt sqrt (sq (A.x - B.x) + sq (A.y - B.y))

/-- The function `generateRays`: the new value of `gameState`. -/
def generateRays (cos sin : K → K) (settings : GameSettings K) (state : GameState K) :
    GameState K :=
  let x := state.player.position.x
  let y := state.player.position.y
  let angleDelta := settings.playerSightAngle / fin (settings.raysCount : K)
  let startAngle := state.player.angle - settings.playerSightAngle / fin 2
  { state with
    rays := (List.range settings.raysCount).map fun (i : ℕ) =>
      let angle := startAngle + fin (i : K) * angleDelta
      let endX := x + settings.playerSightDistance * trig cos angle
      let endY := y - settings.playerSightDistance * trig sin angle
      (⟨x, y⟩, ⟨endX, endY⟩) }

/-- The function `getIntersectionPoint`; `none` is `null`. -/
def getIntersectionPoint (wall ray : Segment K) : Option (Intersection K) :=
  let A := wall.1
  let B := wall.2
  let C := ray.1
  let D := ray.2
  let denominator := (D.x - C.x) * (B.y - A.y) - (B.x - A.x) * (D.y - C.y)
  let r := ((B.x - A.x) * (C.y - A.y) - (C.x - A.x) * (B.y - A.y)) / denominator
  let s := ((A.x - C.x) * (D.y - C.y) - (D.x - C.x) * (A.y - C.y)) / denominator
  if ge r (fin 0) && le r (fin 1) && ge s (fin 0) && le s (fin 1) then
    some { x := s * (B.x - A.x) + A.x, y := s * (B.y - A.y) + A.y, r := r }
  else
    none

/-- The body of the `forEach` of `findIntersections`: the slot pushed for `ray`.
The objects of the array are truthy and `null` is not, so `filter(Boolean)` keeps
the hits. -/
def closestIntersection (walls : List (Segment K)) (ray : Segment K) :
    Option (Intersection K) :=
  let intersections := (walls.map fun wall => getIntersectionPoint wall ray).filterMap id
  if intersections.length > 0 then reduce closer intersections else none

/-- The function `findIntersections`: the new value of `gameState`. -/
def findIntersections (settings : GameSettings K) (state : GameState K) : GameState K :=
  { state with intersections := state.rays.map (closestIntersection settings.walls) }

/-- The body of the `forEach` of `draw3DFrame` for a present intersection at index
`i`, from the value `dist` of `calculateDistance`. -/
def drawStrip (settings : GameSettings K) (i : ℕ) (dist : JSNum K) : Strip K :=
  let rectWidth := settings.screenWidth / fin (settings.raysCount : K)
  let distCoef := fin 1 / (dist / settings.zoom)
  let rectHeight := settings.screenHeight * distCoef
  let y := (settings.screenHeight - rectHeight) / fin 2
  { red := fin 255 * distCoef, green := fin 255 * distCoef, blue := fin 255 * distCoef,
    x := fin (i : K) * rectWidth, y := y, width := rectWidth, height := rectHeight }

/-- The function `draw3DFrame`: for each slot, in order, the strip that is filled,
`none` for a slot that is `null`. -/
def draw3DFrame (sqrt : K → K) (settings : GameSettings K) (state : GameState K) :
    List (Option (Strip K)) :=
  state.intersections.enum.map fun ((i, intersection) : ℕ × Option (Intersection K)) =>
    intersection.map fun hit =>
      drawStrip settings i (calculateDistance sqrt state.player.position ⟨hit.x, hit.y⟩)

/-- The function `handlePlayerMovement`, on the code of the key event: the new
value of `gameState`. -/
def handlePlayerMovement (cos sin : K → K) (settings : GameSettings K) (code : KeyCode)
    (state : GameState K) : GameState K :=
  let player := state.player
  match code with
  | .ArrowUp =>
    let x := player.position.x + settings.playerMoveSpeed * trig cos player.angle
    let y := player.position.y - settings.playerMoveSpeed * trig sin player.angle
    { state with player := { player with position := ⟨x, y⟩ } }
  | .ArrowDown =>
    let x := player.position.x - settings.playerMoveSpeed * trig cos player.angle
    let y := player.position.y + settings.playerMoveSpeed * trig sin player.angle
    { state with player := { player with position := ⟨x, y⟩ } }
  | .ArrowLeft =>
    { state with player := { player with angle := player.angle - settings.playerRotateSpeed } }
  | .ArrowRight =>
    { state with player := { player with angle := player.angle + settings.playerRotateSpeed } }
  | .other => state

end Code

/-! ## Roundings -/

/-- Exact arithmetic: no result is rounded. -/
instance (priority := low) Rounding.exact (K : Type) : Rounding K := ⟨JSNum.fin⟩

/-- The rounding keeps zero and is monotone, and so never gives `NaN`. -/
def Rounding.IsMonotone (K : Type) [LinearOrderedField K] [Rounding K] : Prop :=
  Rounding.round (0 : K) = JSNum.fin 0 ∧
    ∀ a b : K, a ≤ b → JSNum.le (Rounding.round a) (Rounding.round b) = true

/-- The power `2 ^ e` for an integer `e`. -/
def pow2 (e : ℤ) : ℚ :=
  if 0 ≤ e then ((2 ^ e.toNat : ℕ) : ℚ) else 1 / ((2 ^ (-e).toNat : ℕ) : ℚ)

/-- The number of binary digits of `n`, with the fuel `fuel`. -/
def bitLenAux : ℕ → ℕ → ℕ
  | 0, _ => 0
  | fuel + 1, n => if n = 0 then 0 else bitLenAux fuel (n / 2) + 1

/-- The number of binary digits of `n`. -/
def bitLen (n : ℕ) : ℕ := bitLenAux n n

/-- The exponent of the leading binary digit of `x ≠ 0`: `2 ^ e ≤ |x| < 2 ^ (e + 1)`. -/
def ilog2 (x : ℚ) : ℤ :=
  let k : ℤ := (bitLen x.num.natAbs : ℤ) - (bitLen x.den : ℤ)
  if pow2 k ≤ |x| then k else k - 1

/-- The integer nearest to `y`, the even one of the two when `y` is half-way. -/
def roundEven (y : ℚ) : ℤ :=
  let f := ⌊y⌋
  let r := y - f
  if r < 1 / 2 then f else if 1 / 2 < r then f + 1 else if f % 2 = 0 then f else f + 1

/-- The multiple of `2 ^ e` nearest to `x`, ties to even, where `2 ^ e` is the unit in
the last place of the binary64 numbers at `x`: 53 significant bits, and `2 ^ (-1074)`
for the subnormal numbers. -/
def nearest (x : ℚ) : ℚ :=
  if x = 0 then 0 else
    let e := max (ilog2 x - 52) (-1074)
    (roundEven (x / pow2 e) : ℚ) * pow2 e

/-- The binary64 number for the exact value `x`: the nearest one, and an infinity from
`2 ^ 1024` on. -/
def round64 (x : ℚ) : JSNum ℚ :=
  if pow2 1024 ≤ nearest x then JSNum.posInf
  else if nearest x ≤ -pow2 1024 then JSNum.negInf
  else JSNum.fin (nearest x)

/-- The finite values of the binary64 arithmetic of JavaScript, as rational numbers. -/
def Double : Type := ℚ

instance : LinearOrderedField Double := inferInstanceAs (LinearOrderedField ℚ)

instance (a b : Double) : Decidable (a ≤ b) := Rat.instDecidableLe a b

instance : Rounding Double := ⟨round64⟩

/-- The binary64 number nearest to the rational `q`, for the literals of a source. -/
def Double.ofRat (q : ℚ) : Double := nearest q

/-- The value of `Math.PI`: the binary64 number nearest to `π`. -/
def Double.pi : Double := Double.ofRat (3141592653589793 / 1000000000000000)

/-! ## The binary64 rounding -/

section Binary64

open JSNum

theorem pow2_eq (e : ℤ) : pow2 e = (2 : ℚ) ^ e := by
  unfold pow2
  split_ifs with h
  · obtain ⟨n, rfl⟩ := Int.eq_ofNat_of_zero_le h
    simp
  · have h' : 0 ≤ -e := by omega
    obtain ⟨n, hn⟩ := Int.eq_ofNat_of_zero_le h'
    have he : e = -(n : ℤ) := by omega
    subst he
    simp

theorem pow2_pos (e : ℤ) : 0 < pow2 e := by
  rw [pow2_eq]; positivity

theorem bitLenAux_zero (fuel : ℕ) : bitLenAux fuel 0 = 0 := by
  cases fuel <;> simp [bitLenAux]

theorem bitLenAux_spec (fuel n : ℕ) (hn : n ≠ 0) (hf : n ≤ fuel) :
    1 ≤ bitLenAux fuel n ∧ 2 ^ (bitLenAux fuel n - 1) ≤ n ∧ n < 2 ^ bitLenAux fuel n := by
  induction fuel generalizing n with
  | zero => omega
  | succ fuel ih =>
    simp only [bitLenAux, hn, if_false]
    by_cases h2 : n / 2 = 0
    · have h1 : n = 1 := by omega
      subst h1
      simp [bitLenAux_zero]
    · obtain ⟨hb, hlo, hhi⟩ := ih (n / 2) h2 (by omega)
      refine ⟨by omega, ?_, ?_⟩
      · have e : bitLenAux fuel (n / 2) + 1 - 1 = (bitLenAux fuel (n / 2) - 1) + 1 := by omega
        rw [e, pow_succ]
        omega
      · rw [pow_succ]
        omega

theorem bitLen_spec (n : ℕ) (hn : n ≠ 0) :
    1 ≤ bitLen n ∧ 2 ^ (bitLen n - 1) ≤ n ∧ n < 2 ^ bitLen n :=
  bitLenAux_spec n n hn le_rfl


theorem abs_eq_div (x : ℚ) : |x| = (x.num.natAbs : ℚ) / (x.den : ℚ) := by
  conv_lhs => rw [← Rat.num_div_den x]
  rw [abs_div, Nat.cast_natAbs, Int.cast_abs]
  simp

theorem ilog2_spec (x : ℚ) (hx : x ≠ 0) :
    (2 : ℚ) ^ ilog2 x ≤ |x| ∧ |x| < (2 : ℚ) ^ (ilog2 x + 1) := by
  have hn : x.num.natAbs ≠ 0 := by
    simpa using hx
  have hd : x.den ≠ 0 := x.den_nz
  obtain ⟨hbn, hn₁, hn₂⟩ := bitLen_spec _ hn
  obtain ⟨hbd, hd₁, hd₂⟩ := bitLen_spec _ hd
  set n := x.num.natAbs
  set d := x.den
  set bn := bitLen n
  set bd := bitLen d
  have hdpos : (0 : ℚ) < d := by exact_mod_cast Nat.pos_of_ne_zero hd
  have hn₁' : (2 : ℚ) ^ ((bn : ℤ) - 1) ≤ n := by
    have : ((2 ^ (bn - 1) : ℕ) : ℚ) ≤ n := by exact_mod_cast hn₁
    have e : ((bn : ℤ) - 1) = ((bn - 1 : ℕ) : ℤ) := by omega
    rw [e, zpow_natCast]
    simpa using this
  have hn₂' : (n : ℚ) < (2 : ℚ) ^ (bn : ℤ) := by
    have : (n : ℚ) < ((2 ^ bn : ℕ) : ℚ) := by exact_mod_cast hn₂
    rw [zpow_natCast]
    simpa using this
  have hd₁' : (2 : ℚ) ^ ((bd : ℤ) - 1) ≤ d := by
    have : ((2 ^ (bd - 1) : ℕ) : ℚ) ≤ d := by exact_mod_cast hd₁
    have e : ((bd : ℤ) - 1) = ((bd - 1 : ℕ) : ℤ) := by omega
    rw [e, zpow_natCast]
    simpa using this
  have hd₂' : (d : ℚ) < (2 : ℚ) ^ (bd : ℤ) := by
    have : (d : ℚ) < ((2 ^ bd : ℕ) : ℚ) := by exact_mod_cast hd₂
    rw [zpow_natCast]
    simpa using this
  have h2 : (2 : ℚ) ≠ 0 := two_ne_zero
  have hlo : (2 : ℚ) ^ ((bn : ℤ) - bd - 1) < |x| := by
    rw [abs_eq_div, lt_div_iff₀ hdpos]
    calc (2 : ℚ) ^ ((bn : ℤ) - bd - 1) * d
        < (2 : ℚ) ^ ((bn : ℤ) - bd - 1) * (2 : ℚ) ^ (bd : ℤ) :=
          mul_lt_mul_of_pos_left hd₂' (by positivity)
      _ = (2 : ℚ) ^ ((bn : ℤ) - 1) := by
          rw [← zpow_add₀ h2]; congr 1; ring
      _ ≤ n := hn₁'
  have hhi : |x| < (2 : ℚ) ^ ((bn : ℤ) - bd + 1) := by
    rw [abs_eq_div, div_lt_iff₀ hdpos]
    calc (n : ℚ) < (2 : ℚ) ^ (bn : ℤ) := hn₂'
      _ = (2 : ℚ) ^ ((bn : ℤ) - bd + 1) * (2 : ℚ) ^ ((bd : ℤ) - 1) := by
          rw [← zpow_add₀ h2]; congr 1; ring
      _ ≤ (2 : ℚ) ^ ((bn : ℤ) - bd + 1) * d :=
          mul_le_mul_of_nonneg_left hd₁' (by positivity)
  simp only [ilog2]
  split_ifs with h
  · rw [pow2_eq] at h
    exact ⟨h, hhi⟩
  · rw [pow2_eq, not_le] at h
    refine ⟨hlo.le, ?_⟩
    have e : (bn : ℤ) - bd - 1 + 1 = (bn : ℤ) - bd := by ring
    rw [e]
    exact h


theorem roundEven_cases (y : ℚ) : roundEven y = ⌊y⌋ ∨ roundEven y = ⌊y⌋ + 1 := by
  unfold roundEven
  simp only
  split_ifs <;> simp

theorem roundEven_intCast (k : ℤ) : roundEven (k : ℚ) = k := by
  unfold roundEven
  simp

theorem roundEven_mono {y₁ y₂ : ℚ} (h : y₁ ≤ y₂) : roundEven y₁ ≤ roundEven y₂ := by
  have hf : ⌊y₁⌋ ≤ ⌊y₂⌋ := Int.floor_mono h
  rcases lt_or_eq_of_le hf with hlt | heq
  · rcases roundEven_cases y₁ with e₁ | e₁ <;> rcases roundEven_cases y₂ with e₂ | e₂ <;> omega
  · unfold roundEven
    simp only
    rw [heq]
    have hr : y₁ - (⌊y₂⌋ : ℚ) ≤ y₂ - (⌊y₂⌋ : ℚ) := by linarith
    split_ifs <;> first | omega | linarith

theorem roundEven_le_of_le {y : ℚ} {k : ℤ} (h : y ≤ k) : roundEven y ≤ k := by
  have := roundEven_mono h
  rwa [roundEven_intCast] at this

theorem le_roundEven_of_le {y : ℚ} {k : ℤ} (h : (k : ℚ) ≤ y) : k ≤ roundEven y := by
  have := roundEven_mono h
  rwa [roundEven_intCast] at this

theorem roundEven_neg (y : ℚ) : roundEven (-y) = -roundEven y := by
  by_cases hy : (⌊y⌋ : ℚ) = y
  · rw [← hy, ← Int.cast_neg, roundEven_intCast, roundEven_intCast]
  · have hlt : (⌊y⌋ : ℚ) < y := lt_of_le_of_ne (Int.floor_le y) hy
    have hlt' : y < (⌊y⌋ : ℚ) + 1 := Int.lt_floor_add_one y
    have hfl : ⌊-y⌋ = -⌊y⌋ - 1 := by
      rw [Int.floor_eq_iff]
      push_cast
      constructor <;> linarith
    unfold roundEven
    simp only
    rw [hfl]
    push_cast
    split_ifs <;> first | omega | linarith


theorem ilog2_mono {a b : ℚ} (ha : 0 < a) (hab : a ≤ b) : ilog2 a ≤ ilog2 b := by
  have hb : 0 < b := ha.trans_le hab
  obtain ⟨ha₁, -⟩ := ilog2_spec a ha.ne'
  obtain ⟨-, hb₂⟩ := ilog2_spec b hb.ne'
  rw [abs_of_pos ha] at ha₁
  rw [abs_of_pos hb] at hb₂
  have : (2 : ℚ) ^ ilog2 a < (2 : ℚ) ^ (ilog2 b + 1) := lt_of_le_of_lt (ha₁.trans hab) hb₂
  have := (zpow_lt_zpow_iff_right₀ (by norm_num : (1 : ℚ) < 2)).mp this
  omega

theorem nearest_of_ne {x : ℚ} (hx : x ≠ 0) :
    nearest x = (roundEven (x / (2 : ℚ) ^ max (ilog2 x - 52) (-1074)) : ℚ) *
      (2 : ℚ) ^ max (ilog2 x - 52) (-1074) := by
  simp only [nearest, hx, if_false, pow2_eq]

theorem nearest_zero : nearest 0 = 0 := by simp [nearest]

theorem nearest_nonneg {x : ℚ} (hx : 0 < x) : 0 ≤ nearest x := by
  rw [nearest_of_ne hx.ne']
  apply mul_nonneg _ (by positivity)
  have : (0 : ℤ) ≤ roundEven (x / (2 : ℚ) ^ max (ilog2 x - 52) (-1074)) :=
    le_roundEven_of_le (by push_cast; positivity)
  exact_mod_cast this

theorem ilog2_neg (x : ℚ) : ilog2 (-x) = ilog2 x := by
  simp [ilog2]

theorem nearest_neg (x : ℚ) : nearest (-x) = -nearest x := by
  by_cases hx : x = 0
  · simp [hx, nearest_zero]
  · have hx' : -x ≠ 0 := neg_ne_zero.mpr hx
    rw [nearest_of_ne hx, nearest_of_ne hx', ilog2_neg, neg_div, roundEven_neg]
    push_cast
    ring

theorem nearest_mono_pos {a b : ℚ} (ha : 0 < a) (hab : a ≤ b) : nearest a ≤ nearest b := by
  have hb : 0 < b := ha.trans_le hab
  have h2 : (1 : ℚ) < 2 := by norm_num
  have h20 : (2 : ℚ) ≠ 0 := two_ne_zero
  have hlog := ilog2_mono ha hab
  rw [nearest_of_ne ha.ne', nearest_of_ne hb.ne']
  set ea := max (ilog2 a - 52) (-1074) with hea
  set eb := max (ilog2 b - 52) (-1074) with heb
  have hE : ea ≤ eb := max_le_max (by omega) le_rfl
  rcases eq_or_lt_of_le hE with he | he
  · rw [← he]
    apply mul_le_mul_of_nonneg_right _ (by positivity)
    have : roundEven (a / (2 : ℚ) ^ ea) ≤ roundEven (b / (2 : ℚ) ^ ea) :=
      roundEven_mono (div_le_div_of_nonneg_right hab (by positivity))
    exact_mod_cast this
  · have heb' : eb = ilog2 b - 52 := by
      rcases max_cases (ilog2 b - 52) (-1074) with ⟨h, -⟩ | ⟨h, -⟩
      · exact h
      · have : (-1074 : ℤ) ≤ ea := le_max_right _ _
        omega
    have hea' : ilog2 a - 52 ≤ ea := le_max_left _ _
    obtain ⟨-, ha₂⟩ := ilog2_spec a ha.ne'
    obtain ⟨hb₁, -⟩ := ilog2_spec b hb.ne'
    rw [abs_of_pos ha] at ha₂
    rw [abs_of_pos hb] at hb₁
    -- below the power `2 ^ ilog2 b`
    have hm : 0 ≤ ilog2 b - ea := by omega
    obtain ⟨m, hm'⟩ := Int.eq_ofNat_of_zero_le hm
    have hA : (roundEven (a / (2 : ℚ) ^ ea) : ℚ) * (2 : ℚ) ^ ea ≤ (2 : ℚ) ^ ilog2 b := by
      have h1 : a / (2 : ℚ) ^ ea ≤ ((2 ^ m : ℤ) : ℚ) := by
        rw [div_le_iff₀ (by positivity)]
        push_cast
        rw [← zpow_natCast, ← hm', ← zpow_add₀ h20]
        have e : ilog2 b - ea + ea = ilog2 b := by ring
        rw [e]
        exact ha₂.le.trans (zpow_le_zpow_right₀ h2.le (by omega))
      have h3 : roundEven (a / (2 : ℚ) ^ ea) ≤ (2 ^ m : ℤ) := roundEven_le_of_le h1
      have h4 : (roundEven (a / (2 : ℚ) ^ ea) : ℚ) ≤ ((2 ^ m : ℤ) : ℚ) := by exact_mod_cast h3
      calc (roundEven (a / (2 : ℚ) ^ ea) : ℚ) * (2 : ℚ) ^ ea
          ≤ ((2 ^ m : ℤ) : ℚ) * (2 : ℚ) ^ ea := mul_le_mul_of_nonneg_right h4 (by positivity)
        _ = (2 : ℚ) ^ ilog2 b := by
          push_cast
          rw [← zpow_natCast, ← hm', ← zpow_add₀ h20]
          congr 1
          ring
    have hc : ((2 ^ 52 : ℤ) : ℚ) = (2 : ℚ) ^ (52 : ℤ) := by norm_num
    have hB : (2 : ℚ) ^ ilog2 b ≤ (roundEven (b / (2 : ℚ) ^ eb) : ℚ) * (2 : ℚ) ^ eb := by
      have h1 : ((2 ^ 52 : ℤ) : ℚ) ≤ b / (2 : ℚ) ^ eb := by
        rw [le_div_iff₀ (by positivity)]
        rw [hc, ← zpow_add₀ h20, heb']
        have e' : (52 : ℤ) + (ilog2 b - 52) = ilog2 b := by ring
        rw [e']
        exact hb₁
      have h3 : (2 ^ 52 : ℤ) ≤ roundEven (b / (2 : ℚ) ^ eb) := le_roundEven_of_le h1
      have h4 : ((2 ^ 52 : ℤ) : ℚ) ≤ (roundEven (b / (2 : ℚ) ^ eb) : ℚ) := by exact_mod_cast h3
      calc (2 : ℚ) ^ ilog2 b = ((2 ^ 52 : ℤ) : ℚ) * (2 : ℚ) ^ eb := by
            rw [hc, ← zpow_add₀ h20, heb']
            congr 1
            ring
        _ ≤ (roundEven (b / (2 : ℚ) ^ eb) : ℚ) * (2 : ℚ) ^ eb :=
            mul_le_mul_of_nonneg_right h4 (by positivity)
    exact hA.trans hB

theorem nearest_mono {a b : ℚ} (hab : a ≤ b) : nearest a ≤ nearest b := by
  rcases lt_trichotomy a 0 with ha | ha | ha
  · have hna : nearest a ≤ 0 := by
      have := nearest_nonneg (neg_pos.mpr ha)
      rw [nearest_neg] at this
      linarith
    rcases lt_trichotomy b 0 with hb | hb | hb
    · have := nearest_mono_pos (neg_pos.mpr hb) (neg_le_neg hab)
      rw [nearest_neg, nearest_neg] at this
      linarith
    · rw [hb, nearest_zero]
      exact hna
    · exact hna.trans (nearest_nonneg hb)
  · subst ha
    rw [nearest_zero]
    rcases eq_or_lt_of_le hab with hb | hb
    · rw [← hb, nearest_zero]
    · exact nearest_nonneg hb
  · exact nearest_mono_pos ha hab


theorem roundEven_sub_abs_le (y : ℚ) : |(roundEven y : ℚ) - y| ≤ 1 / 2 := by
  have h₁ : (⌊y⌋ : ℚ) ≤ y := Int.floor_le y
  have h₂ : y < (⌊y⌋ : ℚ) + 1 := Int.lt_floor_add_one y
  unfold roundEven
  simp only
  rw [abs_le]
  split_ifs <;> push_cast <;> constructor <;> linarith

/-- Half a unit in the last place. -/
theorem nearest_sub_abs_le {x : ℚ} (hx : x ≠ 0) :
    |nearest x - x| ≤ (2 : ℚ) ^ max (ilog2 x - 52) (-1074) / 2 := by
  rw [nearest_of_ne hx]
  set p := (2 : ℚ) ^ max (ilog2 x - 52) (-1074) with hp
  have hp0 : 0 < p := by positivity
  have e : (roundEven (x / p) : ℚ) * p - x = ((roundEven (x / p) : ℚ) - x / p) * p := by
    field_simp
  rw [e, abs_mul, abs_of_pos hp0]
  have := roundEven_sub_abs_le (x / p)
  calc |(roundEven (x / p) : ℚ) - x / p| * p ≤ 1 / 2 * p :=
        mul_le_mul_of_nonneg_right this hp0.le
    _ = p / 2 := by ring

/-- In the range of the normal numbers the relative error is at most `2 ^ (-53)`. -/
theorem nearest_sub_abs_le_of_normal {x : ℚ} (hx : (2 : ℚ) ^ (-1022 : ℤ) ≤ |x|) :
    |nearest x - x| ≤ |x| / 2 ^ 53 := by
  have hx0 : x ≠ 0 := by
    intro h
    rw [h, abs_zero] at hx
    have : (0 : ℚ) < (2 : ℚ) ^ (-1022 : ℤ) := by positivity
    linarith
  obtain ⟨h₁, h₂⟩ := ilog2_spec x hx0
  have hl : (-1022 : ℤ) ≤ ilog2 x := by
    have : (2 : ℚ) ^ (-1022 : ℤ) < (2 : ℚ) ^ (ilog2 x + 1) := lt_of_le_of_lt hx h₂
    have := (zpow_lt_zpow_iff_right₀ (by norm_num : (1 : ℚ) < 2)).mp this
    omega
  have he : max (ilog2 x - 52) (-1074) = ilog2 x - 52 := max_eq_left (by omega)
  have := nearest_sub_abs_le hx0
  rw [he] at this
  refine this.trans ?_
  have e : (2 : ℚ) ^ (ilog2 x - 52) / 2 = (2 : ℚ) ^ ilog2 x / 2 ^ 53 := by
    rw [zpow_sub₀ (two_ne_zero), div_div]
    norm_num
  rw [e]
  exact div_le_div_of_nonneg_right h₁ (by positivity)

theorem round64_zero : round64 0 = fin 0 := by
  have hp := pow2_pos 1024
  simp only [round64, nearest_zero]
  rw [if_neg (by linarith), if_neg (by linarith)]

/-- The binary64 rounding is monotone. -/
theorem round64_le {a b : ℚ} (h : a ≤ b) : le (round64 a) (round64 b) = true := by
  have hn := nearest_mono h
  have hp := pow2_pos 1024
  unfold round64
  by_cases h₁ : pow2 1024 ≤ nearest a
  · rw [if_pos h₁, if_pos (h₁.trans hn)]
    rfl
  · rw [if_neg h₁]
    by_cases h₂ : nearest a ≤ -pow2 1024
    · rw [if_pos h₂]
      split_ifs <;> rfl
    · rw [if_neg h₂]
      by_cases h₃ : pow2 1024 ≤ nearest b
      · rw [if_pos h₃]
        rfl
      · rw [if_neg h₃, if_neg (by linarith)]
        exact decide_eq_true hn

theorem Double.isMonotone : Rounding.IsMonotone Double :=
  ⟨round64_zero, fun _ _ h => round64_le h⟩

theorem Rounding.exact_isMonotone (K : Type) [LinearOrderedField K] :
    Rounding.IsMonotone K :=
  ⟨rfl, fun _ _ h => decide_eq_true h⟩

theorem nearest_two_pow : nearest ((2 : ℚ) ^ 1023) = (2 : ℚ) ^ 1023 := by decide!

/-- In the range of the normal numbers the binary64 rounding gives a finite number with
a relative error of at most `2 ^ (-53)`. -/
theorem round64_of_normal {x : ℚ} (h₁ : (2 : ℚ) ^ (-1022 : ℤ) ≤ |x|)
    (h₂ : |x| ≤ (2 : ℚ) ^ 1023) :
    round64 x = fin (nearest x) ∧ |nearest x - x| ≤ |x| / 2 ^ 53 := by
  refine ⟨?_, nearest_sub_abs_le_of_normal h₁⟩
  obtain ⟨hlo, hhi⟩ := abs_le.mp h₂
  have hu : nearest x ≤ (2 : ℚ) ^ 1023 := by
    have := nearest_mono hhi
    rwa [nearest_two_pow] at this
  have hl : -(2 : ℚ) ^ 1023 ≤ nearest x := by
    have := nearest_mono hlo
    rwa [nearest_neg, nearest_two_pow] at this
  have hp : pow2 1024 = 2 * (2 : ℚ) ^ 1023 := by
    rw [pow2_eq]
    norm_num
  have hpos : (0 : ℚ) < (2 : ℚ) ^ 1023 := by positivity
  unfold round64
  rw [if_neg (by rw [hp]; linarith), if_neg (by rw [hp]; linarith)]

end Binary64

/-! ## Arithmetic on finite values -/

section Finite

variable {K : Type} [LinearOrderedField K]

open JSNum

@[simp] theorem JSNum.fin_add (a b : K) : (fin a + fin b : JSNum K) = fin (a + b) := rfl

@[simp] theorem JSNum.fin_sub (a b : K) : (fin a - fin b : JSNum K) = fin (a - b) := rfl

@[simp] theorem JSNum.fin_mul (a b : K) : (fin a * fin b : JSNum K) = fin (a * b) := rfl

theorem JSNum.fin_div (a b : K) (h : b ≠ 0) : (fin a / fin b : JSNum K) = fin (a / b) := by
  show JSNum.div (fin a) (fin b) = fin (a / b)
  simp only [JSNum.div, h, if_false]
  rfl

@[simp] theorem JSNum.le_fin (a b : K) : le (fin a) (fin b) = decide (a ≤ b) := rfl

@[simp] theorem JSNum.ge_fin (a b : K) : ge (fin a) (fin b) = decide (b ≤ a) := rfl

@[simp] theorem JSNum.lt_fin (a b : K) : lt (fin a) (fin b) = decide (a < b) := rfl

/-- A number that passes the test `0 <= v && v <= 1` is finite. -/
theorem JSNum.eq_fin_of_ge_of_le {v : JSNum K} {a b : K} (h₀ : ge v (fin a) = true)
    (h₁ : le v (fin b) = true) : ∃ c : K, v = fin c ∧ a ≤ c ∧ c ≤ b := by
  cases v with
  | fin c => exact ⟨c, rfl, by simpa using h₀, by simpa using h₁⟩
  | posInf => simp [JSNum.le] at h₁
  | negInf => simp [JSNum.ge, JSNum.le] at h₀
  | nan => simp [JSNum.le] at h₁

theorem JSNum.le_posInf_of_le_self {v : JSNum K} (h : le v v = true) : le v posInf = true := by
  cases v <;> first | rfl | simp [JSNum.le] at h

end Finite

/-! ## Facts that hold for every rounding -/

section AnyRounding

variable {K : Type} [LinearOrderedField K] [Rounding K]

open JSNum

/-- A number divided by a finite zero is not finite: it fails the test
`0 <= v && v <= 1`. -/
theorem JSNum.div_zero_not_in_range (v : JSNum K) :
    (ge (v / fin 0) (fin 0) && le (v / fin 0) (fin (1 : K))) = false := by
  show (ge (JSNum.div v (fin 0)) (fin 0) && le (JSNum.div v (fin 0)) (fin (1 : K))) = false
  cases v with
  | fin a =>
    rcases lt_trichotomy a 0 with h | h | h
    · have h' : ¬ 0 < a := not_lt.mpr h.le
      simp [JSNum.div, h.ne, h', JSNum.ge, JSNum.le]
    · simp [JSNum.div, h, JSNum.ge, JSNum.le]
    · simp [JSNum.div, h.ne', h, JSNum.ge, JSNum.le]
  | posInf => simp [JSNum.div, JSNum.ge, JSNum.le]
  | negInf => simp [JSNum.div, JSNum.ge, JSNum.le]
  | nan => simp [JSNum.div, JSNum.ge, JSNum.le]

/-- The function `getIntersectionPoint` in terms of the values of `r` and `s`. -/
theorem getIntersectionPoint_eq (wall ray : Segment K) :
    getIntersectionPoint wall ray =
      if ge (computedR wall ray) (fin 0) && le (computedR wall ray) (fin 1) &&
          ge (computedS wall ray) (fin 0) && le (computedS wall ray) (fin 1) then
        some { x := computedS wall ray * (wall.2.x - wall.1.x) + wall.1.x,
               y := computedS wall ray * (wall.2.y - wall.1.y) + wall.1.y,
               r := computedR wall ray }
      else none := rfl

/-- A hit has a finite `r` in `[0, 1]`, whatever the end points are. -/
theorem getIntersectionPoint_r_fin {wall ray : Segment K} {hit : Intersection K}
    (h : getIntersectionPoint wall ray = some hit) : ∃ c : K, hit.r = fin c ∧ 0 ≤ c ∧ c ≤ 1 := by
  simp only [getIntersectionPoint] at h
  split_ifs at h with hc
  simp only [Bool.and_eq_true] at hc
  obtain ⟨c, hc₁, hc₂, hc₃⟩ := JSNum.eq_fin_of_ge_of_le hc.1.1.1 hc.1.1.2
  have hr := congrArg Intersection.r (Option.some.inj h)
  exact ⟨c, by rw [← hr]; exact hc₁, hc₂, hc₃⟩

/-- With a computed denominator that is zero there is no hit. -/
theorem getIntersectionPoint_of_computedDenominator_eq (wall ray : Segment K)
    (h : computedDenominator wall ray = fin 0) : getIntersectionPoint wall ray = none := by
  rw [getIntersectionPoint_eq, if_neg]
  intro hc
  simp only [Bool.and_eq_true] at hc
  have hr := JSNum.div_zero_not_in_range
    ((wall.2.x - wall.1.x) * (ray.1.y - wall.1.y) - (ray.1.x - wall.1.x) * (wall.2.y - wall.1.y))
  have e : computedR wall ray =
      ((wall.2.x - wall.1.x) * (ray.1.y - wall.1.y) - (ray.1.x - wall.1.x) * (wall.2.y - wall.1.y))
        / fin 0 := by
    rw [computedR, h]
  rw [e] at hc
  simp [hc.1.1.1, hc.1.1.2] at hr

/-- A rounding that rounds nothing is the exact arithmetic. -/
theorem Rounding.eq_exact {K : Type} [inst : Rounding K]
    (h : ∀ q : K, Rounding.round q = JSNum.fin q) : inst = Rounding.exact K := by
  cases inst with
  | mk r =>
    have hr : r = JSNum.fin := funext h
    subst hr
    rfl

end AnyRounding

/-! ## The segment intersection -/

section Intersect

variable {K : Type} [LinearOrderedField K]

open JSNum

/-- The code on finite end points with a non-zero denominator. -/
theorem getIntersectionPoint_of_ne (A B C D : K × K) (h : denominator A B C D ≠ 0) :
    getIntersectionPoint (seg A B) (seg C D) =
      if 0 ≤ rayParam A B C D ∧ rayParam A B C D ≤ 1 ∧
          0 ≤ wallParam A B C D ∧ wallParam A B C D ≤ 1 then
        some { x := fin (wallParam A B C D * (B.1 - A.1) + A.1),
               y := fin (wallParam A B C D * (B.2 - A.2) + A.2),
               r := fin (rayParam A B C D) }
      else none := by
  have h' : (D.1 - C.1) * (B.2 - A.2) - (B.1 - A.1) * (D.2 - C.2) ≠ 0 := h
  simp only [getIntersectionPoint, seg, pt, fin_sub, fin_mul, JSNum.fin_div _ _ h', ge_fin,
    le_fin, fin_add, rayParam, wallParam, denominator]
  by_cases hc : 0 ≤ rayParam A B C D ∧ rayParam A B C D ≤ 1 ∧
      0 ≤ wallParam A B C D ∧ wallParam A B C D ≤ 1
  · have hc' := hc
    simp only [rayParam, wallParam, denominator] at hc'
    simp [hc'.1, hc'.2.1, hc'.2.2.1, hc'.2.2.2]
  · have hc' := hc
    simp only [rayParam, wallParam, denominator] at hc'
    rw [if_neg hc', if_neg]
    simpa [and_assoc] using hc'

/-- The code on finite end points with a zero denominator. -/
theorem getIntersectionPoint_of_eq (A B C D : K × K) (h : denominator A B C D = 0) :
    getIntersectionPoint (seg A B) (seg C D) = none := by
  have h' : (D.1 - C.1) * (B.2 - A.2) - (B.1 - A.1) * (D.2 - C.2) = 0 := h
  have hr := JSNum.div_zero_not_in_range
    (fin ((B.1 - A.1) * (C.2 - A.2) - (C.1 - A.1) * (B.2 - A.2)) : JSNum K)
  simp only [getIntersectionPoint, seg, pt, fin_sub, fin_mul, h']
  rw [if_neg]
  intro hc
  simp only [Bool.and_eq_true] at hc
  simp [hc.1.1.1, hc.1.1.2] at hr

/-- The parameters that the code computes are a solution of the meeting equations. -/
theorem meetAt_params (A B C D : K × K) (h : denominator A B C D ≠ 0) :
    MeetAt A B C D (wallParam A B C D) (rayParam A B C D) := by
  have h' : (D.1 - C.1) * (B.2 - A.2) - (B.1 - A.1) * (D.2 - C.2) ≠ 0 := h
  constructor
  · simp only [wallParam, rayParam, denominator]
    field_simp
    ring
  · simp only [wallParam, rayParam, denominator]
    field_simp
    ring

/-- With a non-zero denominator the meeting equations have no other solution. -/
theorem MeetAt.eq_params {A B C D : K × K} {t u : K} (hm : MeetAt A B C D t u)
    (h : denominator A B C D ≠ 0) : t = wallParam A B C D ∧ u = rayParam A B C D := by
  obtain ⟨h₁, h₂⟩ := hm
  have h' : (D.1 - C.1) * (B.2 - A.2) - (B.1 - A.1) * (D.2 - C.2) ≠ 0 := h
  constructor
  · simp only [wallParam, denominator]
    rw [eq_div_iff h']
    linear_combination (D.1 - C.1) * h₂ - (D.2 - C.2) * h₁
  · simp only [rayParam, denominator]
    rw [eq_div_iff h']
    linear_combination (B.1 - A.1) * h₂ - (B.2 - A.2) * h₁

/-- A hit on finite end points: the denominator is not zero, the two parameters are in
`[0, 1]`, and the hit is the point of the wall at `s` with the parameter `r`. -/
theorem getIntersectionPoint_eq_some {A B C D : K × K} {hit : Intersection K}
    (h : getIntersectionPoint (seg A B) (seg C D) = some hit) :
    denominator A B C D ≠ 0 ∧
    (0 ≤ rayParam A B C D ∧ rayParam A B C D ≤ 1 ∧
      0 ≤ wallParam A B C D ∧ wallParam A B C D ≤ 1) ∧
    hit = { x := fin (wallParam A B C D * (B.1 - A.1) + A.1),
            y := fin (wallParam A B C D * (B.2 - A.2) + A.2),
            r := fin (rayParam A B C D) } := by
  by_cases hd : denominator A B C D = 0
  · rw [getIntersectionPoint_of_eq A B C D hd] at h
    exact absurd h (by simp)
  · rw [getIntersectionPoint_of_ne A B C D hd] at h
    split_ifs at h with hc
    exact ⟨hd, hc, (Option.some.inj h).symm⟩

/-- A hit on finite end points is the point of the ray at its parameter `r`. -/
theorem getIntersectionPoint_eq_on_ray {A B C D : K × K} {hit : Intersection K}
    (h : getIntersectionPoint (seg A B) (seg C D) = some hit) :
    ∃ r : K, 0 ≤ r ∧ r ≤ 1 ∧
      hit = { x := fin (C.1 + r * (D.1 - C.1)), y := fin (C.2 + r * (D.2 - C.2)), r := fin r } := by
  obtain ⟨hd, ⟨h₁, h₂, -, -⟩, rfl⟩ := getIntersectionPoint_eq_some h
  obtain ⟨e₁, e₂⟩ := meetAt_params A B C D hd
  refine ⟨rayParam A B C D, h₁, h₂, ?_⟩
  rw [← e₁, ← e₂, add_comm A.1, add_comm A.2]

end Intersect

/-! ## The nearest hit -/

section Reduce

variable {K : Type} [LinearOrderedField K]

open JSNum

theorem closer_eq (prev curr : Intersection K) : closer prev curr = prev ∨ closer prev curr = curr := by
  unfold closer
  split_ifs
  · exact Or.inr rfl
  · exact Or.inl rfl

/-- The result of the `reduce` is an element of the array. -/
theorem foldl_closer_mem (as : List (Intersection K)) (a : Intersection K) :
    as.foldl closer a ∈ a :: as := by
  induction as generalizing a with
  | nil => simp
  | cons b as ih =>
    have := ih (closer a b)
    simp only [List.foldl_cons, List.mem_cons] at this ⊢
    rcases this with h | h
    · rcases closer_eq a b with e | e
      · exact Or.inl (h.trans e)
      · exact Or.inr (Or.inl (h.trans e))
    · exact Or.inr (Or.inr h)

/-- On hits with a finite `r`, the result of the `reduce` has a finite `r` that is at
most the `r` of every element of the array. -/
theorem foldl_closer_le (as : List (Intersection K)) (a : Intersection K)
    (hfin : ∀ h ∈ a :: as, ∃ c : K, h.r = fin c) :
    ∃ c : K, (as.foldl closer a).r = fin c ∧ ∀ h ∈ a :: as, ∀ d : K, h.r = fin d → c ≤ d := by
  induction as generalizing a with
  | nil =>
    obtain ⟨c, hc⟩ := hfin a (by simp)
    refine ⟨c, hc, ?_⟩
    intro h hh d hd
    simp only [List.mem_singleton] at hh
    subst hh
    rw [hc] at hd
    exact le_of_eq (JSNum.fin.inj hd)
  | cons b as ih =>
    obtain ⟨ca, hca⟩ := hfin a (by simp)
    obtain ⟨cb, hcb⟩ := hfin b (by simp)
    have hcl : ∃ c : K, (closer a b).r = fin c ∧ c ≤ ca ∧ c ≤ cb := by
      unfold closer
      rw [hca, hcb, lt_fin]
      by_cases hlt : cb < ca
      · simp only [hlt, decide_True, if_true]
        exact ⟨cb, hcb, hlt.le, le_refl _⟩
      · simp only [hlt, decide_False]
        exact ⟨ca, hca, le_refl _, not_lt.mp hlt⟩
    obtain ⟨cc, hcc, hcca, hccb⟩ := hcl
    have hfin' : ∀ h ∈ closer a b :: as, ∃ c : K, h.r = fin c := by
      intro h hh
      rcases List.mem_cons.mp hh with e | e
      · exact ⟨cc, e ▸ hcc⟩
      · exact hfin h (by simp [e])
    obtain ⟨c, hc, hmin⟩ := ih (closer a b) hfin'
    refine ⟨c, hc, ?_⟩
    have hccc : c ≤ cc := hmin _ (by simp) cc hcc
    intro h hh d hd
    rcases List.mem_cons.mp hh with e | e
    · subst e
      rw [hca] at hd
      exact (JSNum.fin.inj hd) ▸ hccc.trans hcca
    · rcases List.mem_cons.mp e with e | e
      · subst e
        rw [hcb] at hd
        exact (JSNum.fin.inj hd) ▸ hccc.trans hccb
      · exact hmin h (by simp [e]) d hd

end Reduce

section Nearest

variable {K : Type} [LinearOrderedField K] [Rounding K]

open JSNum

/-- The hits of a ray: the array that `findIntersections` reduces. -/
theorem closestIntersection_eq (walls : List (Segment K)) (ray : Segment K) :
    closestIntersection walls ray =
      reduce closer (walls.filterMap fun wall => getIntersectionPoint wall ray) := by
  simp only [closestIntersection, List.filterMap_map, Function.id_comp]
  split_ifs with h
  · rfl
  · have : (walls.filterMap fun wall => getIntersectionPoint wall ray) = [] := by
      simpa using h
    rw [this]
    rfl

theorem mem_hits {walls : List (Segment K)} {ray : Segment K} {hit : Intersection K} :
    hit ∈ (walls.filterMap fun wall => getIntersectionPoint wall ray) ↔
      ∃ wall ∈ walls, getIntersectionPoint wall ray = some hit := by
  simp [List.mem_filterMap]

/-- The slot of a ray is `null` exactly when no wall gives a hit. -/
theorem closestIntersection_eq_none (walls : List (Segment K)) (ray : Segment K) :
    closestIntersection walls ray = none ↔
      ∀ wall ∈ walls, getIntersectionPoint wall ray = none := by
  rw [closestIntersection_eq]
  cases hl : (walls.filterMap fun wall => getIntersectionPoint wall ray) with
  | nil =>
    simp only [reduce, true_iff]
    intro wall hw
    by_contra hne
    obtain ⟨hit, hh⟩ := Option.ne_none_iff_exists'.mp hne
    have : hit ∈ (walls.filterMap fun wall => getIntersectionPoint wall ray) :=
      mem_hits.mpr ⟨wall, hw, hh⟩
    rw [hl] at this
    exact absurd this (by simp)
  | cons a as =>
    simp only [reduce]
    refine ⟨fun h => absurd h (by simp), fun hall => ?_⟩
    have : a ∈ (walls.filterMap fun wall => getIntersectionPoint wall ray) := by
      rw [hl]; simp
    obtain ⟨wall, hw, hh⟩ := mem_hits.mp this
    rw [hall wall hw] at hh
    exact absurd hh (by simp)

/-- A slot that is not `null` is the hit of some wall, with a finite `r` that is at most
the `r` of the hit of every wall. -/
theorem closestIntersection_eq_some {walls : List (Segment K)} {ray : Segment K}
    {hit : Intersection K} (h : closestIntersection walls ray = some hit) :
    (∃ wall ∈ walls, getIntersectionPoint wall ray = some hit) ∧
    ∃ c : K, hit.r = fin c ∧ ∀ wall ∈ walls, ∀ hit', getIntersectionPoint wall ray = some hit' →
      ∃ d : K, hit'.r = fin d ∧ c ≤ d := by
  rw [closestIntersection_eq] at h
  cases hl : (walls.filterMap fun wall => getIntersectionPoint wall ray) with
  | nil => rw [hl] at h; exact absurd h (by simp [reduce])
  | cons a as =>
    rw [hl] at h
    have he : as.foldl closer a = hit := Option.some.inj h
    have hfin : ∀ x ∈ a :: as, ∃ c : K, x.r = fin c := by
      intro x hx
      rw [← hl] at hx
      obtain ⟨wall, -, hh⟩ := mem_hits.mp hx
      obtain ⟨c, hc, -⟩ := getIntersectionPoint_r_fin hh
      exact ⟨c, hc⟩
    have hmem := foldl_closer_mem as a
    obtain ⟨c, hc, hmin⟩ := foldl_closer_le as a hfin
    rw [he] at hmem hc
    rw [← hl] at hmem
    refine ⟨mem_hits.mp hmem, c, hc, ?_⟩
    intro wall hw hit' hh
    have hm : hit' ∈ a :: as := by
      rw [← hl]
      exact mem_hits.mpr ⟨wall, hw, hh⟩
    obtain ⟨d, hd⟩ := hfin hit' hm
    exact ⟨d, hd, hmin hit' hm d hd⟩

end Nearest

section NearestExact

variable {K : Type} [LinearOrderedField K]

open JSNum

/-- On finite end points the slot of a ray does not depend on the order of the walls. -/
theorem closestIntersection_perm {walls walls' : List ((K × K) × (K × K))}
    (hp : walls.Perm walls') (ray : (K × K) × (K × K)) :
    closestIntersection (segs walls') (seg ray.1 ray.2) =
      closestIntersection (segs walls) (seg ray.1 ray.2) := by
  have hps : (segs walls).Perm (segs walls') := hp.map _
  cases h : closestIntersection (segs walls) (seg ray.1 ray.2) with
  | none =>
    rw [closestIntersection_eq_none] at h ⊢
    exact fun wall hw => h wall (hps.mem_iff.mpr hw)
  | some hit =>
    cases h' : closestIntersection (segs walls') (seg ray.1 ray.2) with
    | none =>
      rw [closestIntersection_eq_none] at h'
      obtain ⟨⟨wall, hw, hh⟩, -⟩ := closestIntersection_eq_some h
      rw [h' wall (hps.mem_iff.mp hw)] at hh
      exact absurd hh (by simp)
    | some hit' =>
      obtain ⟨⟨wall, hw, hh⟩, c, hc, hmin⟩ := closestIntersection_eq_some h
      obtain ⟨⟨wall', hw', hh'⟩, c', hc', hmin'⟩ := closestIntersection_eq_some h'
      obtain ⟨d, hd, hcd⟩ := hmin wall' (hps.mem_iff.mpr hw') hit' hh'
      obtain ⟨d', hd', hcd'⟩ := hmin' wall (hps.mem_iff.mp hw) hit hh
      have e₁ : d = c' := JSNum.fin.inj (hd.symm.trans hc')
      have e₂ : d' = c := JSNum.fin.inj (hd'.symm.trans hc)
      have hcc : c = c' := le_antisymm (e₁ ▸ hcd) (e₂ ▸ hcd')
      obtain ⟨AB, hAB, rfl⟩ := List.mem_map.mp hw
      obtain ⟨AB', hAB', rfl⟩ := List.mem_map.mp hw'
      obtain ⟨r, -, -, hr⟩ := getIntersectionPoint_eq_on_ray hh
      obtain ⟨r', -, -, hr'⟩ := getIntersectionPoint_eq_on_ray hh'
      have er : r = c := by
        rw [hr] at hc
        exact JSNum.fin.inj hc
      have er' : r' = c' := by
        rw [hr'] at hc'
        exact JSNum.fin.inj hc'
      rw [hr, hr', er, er', hcc]

end NearestExact

/-! ## The ray fan -/

section Rays

variable {K : Type} [LinearOrderedField K]

open JSNum

/-- The rays of `generateRays` on finite values, for a rays count that is not zero. -/
theorem generateRays_rays_eq (cos sin : K → K) (settings : GameSettings K)
    (state : GameState K) (x y a f d : K) (N : ℕ) (hN : 0 < N) :
    (generateRays cos sin
        { settings with playerSightAngle := fin f, playerSightDistance := fin d, raysCount := N }
        { state with player := { position := pt x y, angle := fin a } }).rays =
      (List.range N).map fun i =>
        seg (x, y) (x + d * cos (rayAngle a f N i), y - d * sin (rayAngle a f N i)) := by
  have hN' : (N : K) ≠ 0 := Nat.cast_ne_zero.mpr hN.ne'
  have h2 : (2 : K) ≠ 0 := two_ne_zero
  simp only [generateRays, pt, seg, rayAngle, JSNum.fin_div _ _ hN', JSNum.fin_div _ _ h2,
    fin_sub, fin_mul, fin_add, trig]

end Rays

/-! ## The projection -/

section Projection

variable {K : Type} [LinearOrderedField K]

open JSNum

/-- The value of `distCoef` for a finite distance and a finite zoom, both non-zero. -/
theorem distCoef_fin (z d : K) (hz : z ≠ 0) (hd : d ≠ 0) :
    (fin 1 / (fin d / fin z) : JSNum K) = fin (1 / (d / z)) := by
  rw [JSNum.fin_div _ _ hz, JSNum.fin_div _ _ (div_ne_zero hd hz)]

/-- The value of `distCoef` at the distance zero, for a positive zoom: `Infinity`. -/
theorem distCoef_zero (z : K) (hz : 0 < z) : (fin 1 / (fin 0 / fin z) : JSNum K) = posInf := by
  rw [JSNum.fin_div _ _ hz.ne', zero_div]
  show JSNum.div (fin 1) (fin 0) = posInf
  simp [JSNum.div]

theorem fin_mul_posInf (a : K) (ha : 0 < a) : (fin a * posInf : JSNum K) = posInf := by
  show JSNum.mul (fin a) posInf = posInf
  simp [JSNum.mul, JSNum.mulInf, ha.ne', ha, JSNum.inf]

/-- The slot `i` of `draw3DFrame`: nothing for `null`, and for a hit the strip at the
distance that `calculateDistance` gives between the player and the hit. -/
theorem draw3DFrame_slot (sqrt : K → K) (settings : GameSettings K) (state : GameState K)
    (i : ℕ) :
    (draw3DFrame sqrt settings state)[i]? =
      state.intersections[i]?.map fun slot =>
        slot.map fun hit =>
          drawStrip settings i (calculateDistance sqrt state.player.position ⟨hit.x, hit.y⟩) := by
  simp only [draw3DFrame, List.getElem?_map, List.enum, List.getElem?_enumFrom]
  cases state.intersections[i]? <;> simp

end Projection

/-! ## The map of the source -/

section Enclosed

variable {K : Type} [LinearOrderedField K]

open JSNum

/-- The walls of the source, as segments with finite end points. -/
theorem gameSettings_walls (pi : K) :
    (gameSettings pi).walls =
      segs [((0, 0), (0, 300)), ((0, 0), (300, 0)), ((300, 0), (300, 300)),
        ((0, 300), (300, 300)), ((100, 150), (200, 150)), ((100, 120), (100, 150)),
        ((0, 180), (50, 180)), ((0, 100), (50, 180))] := rfl

/-- A hit from parameters in `[0, 1]` at which the segments meet. -/
theorem exists_hit_of_meetAt {A B C D : K × K} (h : denominator A B C D ≠ 0) (t u : K)
    (ht₀ : 0 ≤ t) (ht₁ : t ≤ 1) (hu₀ : 0 ≤ u) (hu₁ : u ≤ 1) (hm : MeetAt A B C D t u) :
    ∃ hit, getIntersectionPoint (seg A B) (seg C D) = some hit := by
  obtain ⟨rfl, rfl⟩ := hm.eq_params h
  rw [getIntersectionPoint_of_ne A B C D h, if_pos ⟨hu₀, hu₁, ht₀, ht₁⟩]
  exact ⟨_, rfl⟩

/-- A ray from `(75, 100)` that ends below the line `y = 300` hits the left, the bottom
or the right side of the square. -/
theorem exists_wall_hit (pi ex ey : K) (hey : 300 < ey) :
    ∃ wall ∈ (gameSettings pi).walls, ∃ hit,
      getIntersectionPoint wall (seg (75, 100) (ex, ey)) = some hit := by
  have hpos : 0 < ey - 100 := by linarith
  rcases lt_or_le (75 * (ey - 100) + 200 * (ex - 75)) 0 with hl | hl
  · -- the left side, at `u = 75 / (75 - ex)`
    have hx : 0 < 75 - ex := by nlinarith
    have hx' : 75 ≤ 75 - ex := by nlinarith
    refine ⟨seg (0, 0) (0, 300), by simp [gameSettings, seg], ?_⟩
    refine exists_hit_of_meetAt ?_ ((100 + 75 / (75 - ex) * (ey - 100)) / 300) (75 / (75 - ex))
      ?_ ?_ ?_ ?_ ?_
    · simp only [denominator]
      intro h0
      nlinarith
    · positivity
    · rw [div_le_one (by norm_num)]
      have : 75 / (75 - ex) * (ey - 100) ≤ 200 := by
        rw [div_mul_eq_mul_div, div_le_iff₀ hx]
        nlinarith
      linarith
    · positivity
    · rw [div_le_one hx]
      exact hx'
    · constructor
      · simp only
        field_simp
        ring
      · simp only
        field_simp
        ring
  · rcases le_or_lt (200 * (ex - 75)) (225 * (ey - 100)) with hr | hr
    · -- the bottom side, at `u = 200 / (ey - 100)`
      refine ⟨seg (0, 300) (300, 300), by simp [gameSettings, seg], ?_⟩
      refine exists_hit_of_meetAt ?_ ((75 + 200 / (ey - 100) * (ex - 75)) / 300)
        (200 / (ey - 100)) ?_ ?_ ?_ ?_ ?_
      · simp only [denominator]
        intro h0
        nlinarith
      · apply div_nonneg _ (by norm_num)
        have : 0 ≤ 75 + 200 * (ex - 75) / (ey - 100) := by
          have h1 : 75 + 200 * (ex - 75) / (ey - 100) =
              (75 * (ey - 100) + 200 * (ex - 75)) / (ey - 100) := by
            field_simp
          rw [h1]
          exact div_nonneg hl hpos.le
        rwa [div_mul_eq_mul_div]
      · rw [div_le_one (by norm_num)]
        have : 200 / (ey - 100) * (ex - 75) ≤ 225 := by
          rw [div_mul_eq_mul_div, div_le_iff₀ hpos]
          linarith
        linarith
      · positivity
      · rw [div_le_one hpos]
        linarith
      · constructor
        · simp only
          field_simp
          ring
        · simp only
          field_simp
          ring
    · -- the right side, at `u = 225 / (ex - 75)`
      have hx : 0 < ex - 75 := by nlinarith
      refine ⟨seg (300, 0) (300, 300), by simp [gameSettings, seg], ?_⟩
      refine exists_hit_of_meetAt ?_ ((100 + 225 / (ex - 75) * (ey - 100)) / 300)
        (225 / (ex - 75)) ?_ ?_ ?_ ?_ ?_
      · simp only [denominator]
        intro h0
        nlinarith
      · positivity
      · rw [div_le_one (by norm_num)]
        have : 225 / (ex - 75) * (ey - 100) ≤ 200 := by
          rw [div_mul_eq_mul_div, div_le_iff₀ hx]
          linarith
        linarith
      · positivity
      · rw [div_le_one hx]
        nlinarith
      · constructor
        · simp only
          field_simp
          ring
        · simp only
          field_simp
          ring

/-- With the walls of the source, the slot of a ray from `(75, 100)` that ends below the
line `y = 300` is a hit with finite coordinates and `r` in `[0, 1]`. -/
theorem closestIntersection_enclosed (pi ex ey : K) (hey : 300 < ey) :
    ∃ x y r : K, closestIntersection (gameSettings pi).walls (seg (75, 100) (ex, ey)) =
      some { x := fin x, y := fin y, r := fin r } ∧ 0 ≤ r ∧ r ≤ 1 := by
  cases h : closestIntersection (gameSettings pi).walls (seg (75, 100) (ex, ey)) with
  | none =>
    obtain ⟨wall, hw, hit, hh⟩ := exists_wall_hit pi ex ey hey
    rw [closestIntersection_eq_none] at h
    rw [h wall hw] at hh
    exact absurd hh (by simp)
  | some hit =>
    obtain ⟨⟨wall, hw, hh⟩, -⟩ := closestIntersection_eq_some h
    rw [gameSettings_walls] at hw
    obtain ⟨AB, -, rfl⟩ := List.mem_map.mp hw
    obtain ⟨r, hr₀, hr₁, rfl⟩ :=
      getIntersectionPoint_eq_on_ray (A := AB.1) (B := AB.2) (C := (75, 100)) (D := (ex, ey)) hh
    exact ⟨_, _, r, rfl, hr₀, hr₁⟩

end Enclosed

/-- The sine of the angle of every ray of the source is less than `-4/5`: the angle is
within `0.135 π` of `1.5 π`. -/
theorem sin_rayAngle_lt (i : ℕ) (hi : i < 100) :
    Real.sin (rayAngle (15 / 10 * Real.pi) (27 / 100 * Real.pi) 100 i) < -(4 / 5) := by
  have hpi := Real.pi_gt_three
  have hpi' := Real.pi_lt_d2
  have hi' : (i : ℝ) ≤ 99 := by exact_mod_cast Nat.le_of_lt_succ hi
  have hi₀ : (0 : ℝ) ≤ i := Nat.cast_nonneg i
  set δ : ℝ := (-(27 / 200) + (i : ℝ) * (27 / 10000)) * Real.pi with hδ
  have hang : rayAngle (15 / 10 * Real.pi) (27 / 100 * Real.pi) 100 i
      = δ + Real.pi / 2 + Real.pi := by
    simp only [rayAngle, hδ]
    push_cast
    ring
  rw [hang, Real.sin_add_pi, Real.sin_add_pi_div_two]
  have hcos := Real.one_sub_sq_div_two_le_cos (x := δ)
  have hδ₁ : -(3 / 5) ≤ δ := by
    simp only [hδ]
    nlinarith
  have hδ₂ : δ ≤ 3 / 5 := by
    simp only [hδ]
    nlinarith
  have hsq : δ ^ 2 ≤ 9 / 25 := by nlinarith
  linarith

/-! ## Exact arithmetic -/

section Exact

variable {K : Type} [LinearOrderedField K]

open JSNum

/-- In exact arithmetic, for finite end points and a non-zero denominator: there is a hit
if and only if the segments meet at parameters in `[0, 1]`, and the hit is the meeting
point, with the parameter of the ray as `r`. -/
theorem getIntersectionPoint_exact (A B C D : K × K)
    (h : denominator A B C D ≠ 0) :
    ((∃ hit, getIntersectionPoint (seg A B) (seg C D) = some hit) ↔
      ∃ t u : K, 0 ≤ t ∧ t ≤ 1 ∧ 0 ≤ u ∧ u ≤ 1 ∧ MeetAt A B C D t u) ∧
    ∀ hit, getIntersectionPoint (seg A B) (seg C D) = some hit →
      ∀ t u : K, MeetAt A B C D t u →
        hit.x = fin (A.1 + t * (B.1 - A.1)) ∧ hit.y = fin (A.2 + t * (B.2 - A.2)) ∧
        hit.x = fin (C.1 + u * (D.1 - C.1)) ∧ hit.y = fin (C.2 + u * (D.2 - C.2)) ∧
        hit.r = fin u := by
  refine ⟨⟨?_, ?_⟩, ?_⟩
  · rintro ⟨hit, hh⟩
    obtain ⟨-, ⟨h₁, h₂, h₃, h₄⟩, -⟩ := getIntersectionPoint_eq_some hh
    exact ⟨wallParam A B C D, rayParam A B C D, h₃, h₄, h₁, h₂, meetAt_params A B C D h⟩
  · rintro ⟨t, u, ht₀, ht₁, hu₀, hu₁, hm⟩
    obtain ⟨rfl, rfl⟩ := hm.eq_params h
    rw [getIntersectionPoint_of_ne A B C D h, if_pos ⟨hu₀, hu₁, ht₀, ht₁⟩]
    exact ⟨_, rfl⟩
  · intro hit hh t u hm
    obtain ⟨-, -, rfl⟩ := getIntersectionPoint_eq_some hh
    have hm' := hm
    obtain ⟨rfl, rfl⟩ := hm.eq_params h
    obtain ⟨h₁, h₂⟩ := hm'
    refine ⟨?_, ?_, ?_, ?_, rfl⟩
    · show fin _ = fin _
      rw [add_comm]
    · show fin _ = fin _
      rw [add_comm]
    · show fin _ = fin _
      rw [← h₁, add_comm]
    · show fin _ = fin _
      rw [← h₂, add_comm]

/-- In exact arithmetic, for finite end points: the slots do not depend on the order of
the walls, and of two hits with different `r` the one with the smaller `r` is kept. -/
theorem findIntersections_perm_exact (settings : GameSettings K) (state : GameState K)
    (walls walls' rays : List ((K × K) × (K × K))) (hp : walls.Perm walls') :
    (findIntersections { settings with walls := segs walls' }
        { state with rays := segs rays }).intersections =
      (findIntersections { settings with walls := segs walls }
        { state with rays := segs rays }).intersections ∧
    ∀ (w₁ w₂ ray : (K × K) × (K × K)) (h₁ h₂ : Intersection K),
      getIntersectionPoint (seg w₁.1 w₁.2) (seg ray.1 ray.2) = some h₁ →
      getIntersectionPoint (seg w₂.1 w₂.2) (seg ray.1 ray.2) = some h₂ →
      lt h₁.r h₂.r = true →
      closestIntersection (segs [w₁, w₂]) (seg ray.1 ray.2) = some h₁ ∧
      closestIntersection (segs [w₂, w₁]) (seg ray.1 ray.2) = some h₁ := by
  constructor
  · simp only [findIntersections, segs, List.map_map]
    apply List.map_congr_left
    intro ray _
    exact closestIntersection_perm hp ray
  · intro w₁ w₂ ray h₁ h₂ e₁ e₂ hlt
    obtain ⟨c₁, hc₁, -⟩ := getIntersectionPoint_r_fin e₁
    obtain ⟨c₂, hc₂, -⟩ := getIntersectionPoint_r_fin e₂
    rw [hc₁, hc₂, lt_fin] at hlt
    have hlt' : c₁ < c₂ := of_decide_eq_true hlt
    have hnlt : ¬ c₂ < c₁ := not_lt.mpr hlt'.le
    constructor
    · simp [closestIntersection_eq, segs, e₁, e₂, reduce, closer, hc₁, hc₂, hnlt]
    · simp [closestIntersection_eq, segs, e₁, e₂, reduce, closer, hc₁, hc₂, hlt']

/-- In exact arithmetic: the heights and the shades of the strips at two distances
`0 < d₁ < d₂`, the nearer one strictly taller and at least as bright. -/
theorem drawStrip_exact (settings : GameSettings K) (i j : ℕ)
    (H z d₁ d₂ : K) (hH : 0 < H) (hz : 0 < z) (hd₁ : 0 < d₁) (hd : d₁ < d₂) :
    (drawStrip { settings with screenHeight := fin H, zoom := fin z } i (fin d₁)).height =
      fin (H * (1 / (d₁ / z))) ∧
    (drawStrip { settings with screenHeight := fin H, zoom := fin z } j (fin d₂)).height =
      fin (H * (1 / (d₂ / z))) ∧
    (drawStrip { settings with screenHeight := fin H, zoom := fin z } i (fin d₁)).red =
      fin (255 * (1 / (d₁ / z))) ∧
    (drawStrip { settings with screenHeight := fin H, zoom := fin z } j (fin d₂)).red =
      fin (255 * (1 / (d₂ / z))) ∧
    H * (1 / (d₂ / z)) < H * (1 / (d₁ / z)) ∧
    255 * (1 / (d₂ / z)) ≤ 255 * (1 / (d₁ / z)) ∧
    lt (drawStrip { settings with screenHeight := fin H, zoom := fin z } j (fin d₂)).height
      (drawStrip { settings with screenHeight := fin H, zoom := fin z } i (fin d₁)).height
        = true ∧
    le (drawStrip { settings with screenHeight := fin H, zoom := fin z } j (fin d₂)).red
      (drawStrip { settings with screenHeight := fin H, zoom := fin z } i (fin d₁)).red
        = true ∧
    le (drawStrip { settings with screenHeight := fin H, zoom := fin z } j (fin d₂)).green
      (drawStrip { settings with screenHeight := fin H, zoom := fin z } i (fin d₁)).green
        = true ∧
    le (drawStrip { settings with screenHeight := fin H, zoom := fin z } j (fin d₂)).blue
      (drawStrip { settings with screenHeight := fin H, zoom := fin z } i (fin d₁)).blue
        = true := by
  have hd₂ : 0 < d₂ := hd₁.trans hd
  have hc : 1 / (d₂ / z) < 1 / (d₁ / z) :=
    one_div_lt_one_div_of_lt (div_pos hd₁ hz) (div_lt_div_of_pos_right hd hz)
  have hh : H * (1 / (d₂ / z)) < H * (1 / (d₁ / z)) := mul_lt_mul_of_pos_left hc hH
  have hs : (255 : K) * (1 / (d₂ / z)) ≤ 255 * (1 / (d₁ / z)) :=
    mul_le_mul_of_nonneg_left hc.le (by norm_num)
  simp only [drawStrip, distCoef_fin z d₁ hz.ne' hd₁.ne', distCoef_fin z d₂ hz.ne' hd₂.ne',
    fin_mul, lt_fin, le_fin]
  exact ⟨trivial, trivial, trivial, trivial, hh, hs, decide_eq_true hh, decide_eq_true hs,
    decide_eq_true hs, decide_eq_true hs⟩

/-- In exact arithmetic, on finite values: the moves of the four keys, and the pairs of
keys that give back the state. -/
theorem handlePlayerMovement_exact (cos sin : K → K) (settings : GameSettings K)
    (state : GameState K) (x y a v w : K) :
    (handlePlayerMovement cos sin
        { settings with playerMoveSpeed := fin v, playerRotateSpeed := fin w } KeyCode.ArrowUp
        { state with player := { position := pt x y, angle := fin a } }).player =
      { position := pt (x + v * cos a) (y - v * sin a), angle := fin a } ∧
    (handlePlayerMovement cos sin
        { settings with playerMoveSpeed := fin v, playerRotateSpeed := fin w } KeyCode.ArrowDown
        { state with player := { position := pt x y, angle := fin a } }).player =
      { position := pt (x - v * cos a) (y + v * sin a), angle := fin a } ∧
    handlePlayerMovement cos sin
        { settings with playerMoveSpeed := fin v, playerRotateSpeed := fin w } KeyCode.ArrowDown
        (handlePlayerMovement cos sin
          { settings with playerMoveSpeed := fin v, playerRotateSpeed := fin w } KeyCode.ArrowUp
          { state with player := { position := pt x y, angle := fin a } }) =
      { state with player := { position := pt x y, angle := fin a } } ∧
    handlePlayerMovement cos sin
        { settings with playerMoveSpeed := fin v, playerRotateSpeed := fin w } KeyCode.ArrowRight
        (handlePlayerMovement cos sin
          { settings with playerMoveSpeed := fin v, playerRotateSpeed := fin w } KeyCode.ArrowLeft
          { state with player := { position := pt x y, angle := fin a } }) =
      { state with player := { position := pt x y, angle := fin a } } ∧
    handlePlayerMovement cos sin
        { settings with playerMoveSpeed := fin v, playerRotateSpeed := fin w } KeyCode.ArrowLeft
        (handlePlayerMovement cos sin
          { settings with playerMoveSpeed := fin v, playerRotateSpeed := fin w } KeyCode.ArrowRight
          { state with player := { position := pt x y, angle := fin a } }) =
      { state with player := { position := pt x y, angle := fin a } } := by
  refine ⟨?_, ?_, ?_, ?_, ?_⟩
  · simp [handlePlayerMovement, pt, trig]
  · simp [handlePlayerMovement, pt, trig]
  · simp [handlePlayerMovement, pt, trig]
  · simp [handlePlayerMovement]
  · simp [handlePlayerMovement]

end Exact

/-! ## Claims -/

section ClaimsAnyRounding

variable {K : Type} [LinearOrderedField K] [Rounding K]

open JSNum

/-- C2. `findIntersections` fills one slot per ray, in the order of the rays. The slot of
a ray is `null` if and only if `getIntersectionPoint` returns no hit for that ray against
every wall, so for every ray when there is no wall; otherwise it is a hit that
`getIntersectionPoint` returns for some wall, whose `r` is less than or equal to the `r` of
the hit of every wall for that ray. -/
theorem findIntersections_slots (settings : GameSettings K) (state : GameState K) :
    (findIntersections settings state).intersections.length = state.rays.length ∧
    (∀ (i : ℕ) (ray : Segment K), state.rays[i]? = some ray →
      ∃ slot, (findIntersections settings state).intersections[i]? = some slot ∧
        (slot = none ↔ ∀ wall ∈ settings.walls, getIntersectionPoint wall ray = none) ∧
        ∀ hit, slot = some hit →
          (∃ wall ∈ settings.walls, getIntersectionPoint wall ray = some hit) ∧
          ∀ wall ∈ settings.walls, ∀ hit', getIntersectionPoint wall ray = some hit' →
            le hit.r hit'.r = true) ∧
    (settings.walls = [] →
      ∀ slot ∈ (findIntersections settings state).intersections, slot = none) := by
  refine ⟨by simp [findIntersections], ?_, ?_⟩
  · intro i ray hi
    refine ⟨closestIntersection settings.walls ray, by simp [findIntersections, hi],
      closestIntersection_eq_none _ _, ?_⟩
    intro hit hs
    obtain ⟨hw, c, hc, hmin⟩ := closestIntersection_eq_some hs
    refine ⟨hw, fun wall hwall hit' hh' => ?_⟩
    obtain ⟨d, hd, hcd⟩ := hmin wall hwall hit' hh'
    rw [hc, hd, le_fin]
    exact decide_eq_true hcd
  · intro hw slot hs
    simp only [findIntersections, List.mem_map] at hs
    obtain ⟨ray, -, rfl⟩ := hs
    rw [closestIntersection_eq_none, hw]
    intro wall hwall
    exact absurd hwall (by simp)

end ClaimsAnyRounding



section Claims

variable {K : Type} [LinearOrderedField K]

open JSNum

/-- C5. For a player at `(x, y)` with the angle `a`, a sight angle `f`, a sight distance
`d` (all finite) and a rays count `N > 0`, `generateRays` produces exactly `N` rays; the
ray at index `i < N` starts at `(x, y)` and ends at `(x + d cos a_i, y - d sin a_i)` with
`a_i = a - f/2 + i (f/N)`; the angle of ray 0 is `a - f/2` and the difference between the
angles of consecutive rays is `f/N`. The player and the intersections are unchanged. -/
theorem generateRays_fan (cos sin : K → K) (settings : GameSettings K) (state : GameState K)
    (x y a f d : K) (N : ℕ) (hN : 0 < N) :
    (generateRays cos sin
        { settings with playerSightAngle := fin f, playerSightDistance := fin d, raysCount := N }
        { state with player := { position := pt x y, angle := fin a } }).rays.length = N ∧
    (∀ i, i < N →
      (generateRays cos sin
        { settings with playerSightAngle := fin f, playerSightDistance := fin d, raysCount := N }
        { state with player := { position := pt x y, angle := fin a } }).rays[i]? =
      some (pt x y,
        pt (x + d * cos (a - f / 2 + (i : K) * (f / (N : K))))
          (y - d * sin (a - f / 2 + (i : K) * (f / (N : K)))))) ∧
    (∀ i, rayAngle a f N i = a - f / 2 + (i : K) * (f / (N : K))) ∧
    rayAngle a f N 0 = a - f / 2 ∧
    (∀ i, rayAngle a f N (i + 1) - rayAngle a f N i = f / (N : K)) ∧
    (generateRays cos sin
        { settings with playerSightAngle := fin f, playerSightDistance := fin d, raysCount := N }
        { state with player := { position := pt x y, angle := fin a } }).player =
      { position := pt x y, angle := fin a } ∧
    (generateRays cos sin
        { settings with playerSightAngle := fin f, playerSightDistance := fin d, raysCount := N }
        { state with player := { position := pt x y, angle := fin a } }).intersections =
      state.intersections := by
  rw [generateRays_rays_eq cos sin settings state x y a f d N hN]
  refine ⟨by simp, ?_, fun i => rfl, by simp [rayAngle], ?_, rfl, rfl⟩
  · intro i hi
    simp [List.getElem?_map, List.getElem?_range hi, seg, rayAngle]
  · intro i
    simp only [rayAngle, Nat.cast_add, Nat.cast_one]
    ring

/-- C5, for the player at `(75, 100)` with the angle `0`, the sight angle `1`, the sight
distance `250` and `4` rays. -/
theorem generateRays_fan_witness :
    0 < 4 ∧
      (generateRays (fun _ => (1 : ℚ)) (fun _ => (0 : ℚ))
        { gameSettings (22 / 7 : ℚ) with
          playerSightAngle := fin 1, playerSightDistance := fin 250, raysCount := 4 }
        { gameState (22 / 7 : ℚ) with
          player := { position := pt 75 100, angle := fin 0 } }).rays.length = 4 :=
  ⟨by decide,
   (generateRays_fan (fun _ => (1 : ℚ)) (fun _ => (0 : ℚ)) (gameSettings (22 / 7)) (gameState (22 / 7))
    75 100 0 1 250 4 (by decide)).1⟩

/-- C7, as stated, fails: with the zoom `25` of the source, at the distance `5` the
value of each channel is `1275`, which is not in `[0, 255]`. -/
theorem drawStrip_shade_not_clamped :
    (drawStrip (gameSettings (22 / 7 : ℚ)) 0 (fin 5)).red = fin 1275 ∧
      (drawStrip (gameSettings (22 / 7 : ℚ)) 0 (fin 5)).green = fin 1275 ∧
      (drawStrip (gameSettings (22 / 7 : ℚ)) 0 (fin 5)).blue = fin 1275 ∧
      le (drawStrip (gameSettings (22 / 7 : ℚ)) 0 (fin 5)).red (fin 255) = false := by
  have h : (drawStrip (gameSettings (22 / 7 : ℚ)) 0 (fin 5)).red = fin 1275 := by
    simp only [drawStrip, gameSettings, distCoef_fin (25 : ℚ) 5 (by norm_num) (by norm_num),
      fin_mul]
    norm_num
  refine ⟨h, h, h, ?_⟩
  rw [h, le_fin]
  exact decide_eq_false (by norm_num)

/-- C7, amended. For a zoom `z > 0` and a distance `d ≥ 0`, the three channels of the
fill style of `draw3DFrame` have the same value, and it is not clamped: for `d > 0` it is
`255 * (1 / (d / z)) = 255 z / d`, which is positive, and is at most `255` if and only if
`z ≤ d`; for `d = 0` it is `Infinity`. -/
theorem drawStrip_shade (settings : GameSettings K) (i : ℕ) (z d : K) (hz : 0 < z)
    (hd : 0 ≤ d) :
    (drawStrip { settings with zoom := fin z } i (fin d)).green =
      (drawStrip { settings with zoom := fin z } i (fin d)).red ∧
    (drawStrip { settings with zoom := fin z } i (fin d)).blue =
      (drawStrip { settings with zoom := fin z } i (fin d)).red ∧
    (0 < d →
      (drawStrip { settings with zoom := fin z } i (fin d)).red = fin (255 * (1 / (d / z))) ∧
      255 * (1 / (d / z)) = 255 * z / d ∧
      0 < 255 * z / d ∧
      (255 * z / d ≤ 255 ↔ z ≤ d)) ∧
    (d = 0 → (drawStrip { settings with zoom := fin z } i (fin d)).red = posInf) := by
  refine ⟨rfl, rfl, ?_, ?_⟩
  · intro hpos
    refine ⟨?_, ?_, ?_, ?_⟩
    · simp only [drawStrip, distCoef_fin z d hz.ne' hpos.ne', fin_mul]
    · field_simp
    · positivity
    · rw [div_le_iff₀ hpos]
      constructor
      · intro h
        exact le_of_mul_le_mul_left h (by norm_num)
      · intro h
        exact mul_le_mul_of_nonneg_left h (by norm_num)
  · intro h0
    subst h0
    simp only [drawStrip, distCoef_zero z hz]
    exact fin_mul_posInf 255 (by norm_num)

/-- C7, amended, for the zoom `25` and the distance `5`. -/
theorem drawStrip_shade_witness :
    (0 : ℚ) < 25 ∧ (0 : ℚ) ≤ 5 ∧
      (drawStrip { gameSettings (22 / 7 : ℚ) with zoom := fin 25 } 0 (fin 5)).green =
        (drawStrip { gameSettings (22 / 7 : ℚ) with zoom := fin 25 } 0 (fin 5)).red :=
  ⟨by norm_num, by norm_num,
   (drawStrip_shade (gameSettings (22 / 7 : ℚ)) 0 25 5 (by norm_num) (by norm_num)).1⟩

/-- C8, as stated, fails: from the angle `0` with the rotate speed `1`, the key
`ArrowLeft` gives the angle `-1`, not `0 + 1`, and the key `ArrowRight` gives the angle
`1`, not `0 - 1`. -/
theorem handlePlayerMovement_left_not_add :
    (handlePlayerMovement (fun _ => (1 : ℚ)) (fun _ => (0 : ℚ))
        { gameSettings (22 / 7 : ℚ) with playerRotateSpeed := fin 1 } KeyCode.ArrowLeft
        { gameState (22 / 7 : ℚ) with player := { position := pt 75 100, angle := fin 0 } }).player.angle
      = fin (-1) ∧
    (fin (-1) : JSNum ℚ) ≠ fin (0 + 1) ∧
    (handlePlayerMovement (fun _ => (1 : ℚ)) (fun _ => (0 : ℚ))
        { gameSettings (22 / 7 : ℚ) with playerRotateSpeed := fin 1 } KeyCode.ArrowRight
        { gameState (22 / 7 : ℚ) with player := { position := pt 75 100, angle := fin 0 } }).player.angle
      = fin 1 ∧
    (fin 1 : JSNum ℚ) ≠ fin (0 - 1) := by
  refine ⟨?_, ?_, ?_, ?_⟩
  · simp [handlePlayerMovement]
  · intro h
    have := JSNum.fin.inj h
    norm_num at this
  · simp [handlePlayerMovement]
  · intro h
    have := JSNum.fin.inj h
    norm_num at this

/-- C8, amended. For every position `p`, finite angle `a` and finite rotate speed `w`,
the key `ArrowLeft` subtracts `w` from the angle and the key `ArrowRight` adds `w` to it:
the new angle is `a - w` and `a + w`, with no wraparound, and in both cases the position
is unchanged. -/
theorem handlePlayerMovement_rotate (cos sin : K → K) (settings : GameSettings K)
    (state : GameState K) (p : Point K) (a w : K) :
    (handlePlayerMovement cos sin { settings with playerRotateSpeed := fin w } KeyCode.ArrowLeft
        { state with player := { position := p, angle := fin a } }).player =
      { position := p, angle := fin (a - w) } ∧
    (handlePlayerMovement cos sin { settings with playerRotateSpeed := fin w } KeyCode.ArrowRight
        { state with player := { position := p, angle := fin a } }).player =
      { position := p, angle := fin (a + w) } := by
  constructor <;> simp [handlePlayerMovement]

end Claims

/-! ## Monotone roundings -/

section MonotoneRounding

variable {K : Type} [LinearOrderedField K] [Rounding K]

open JSNum

theorem JSNum.fin_div_of_ne (a b : K) (h : b ≠ 0) :
    (fin a / fin b : JSNum K) = Rounding.round (a / b) := by
  show JSNum.div (fin a) (fin b) = _
  simp only [JSNum.div, h, if_false]

theorem Rounding.IsMonotone.le_round (hm : Rounding.IsMonotone K) {a b : K} (h : a ≤ b) :
    le (Rounding.round a) (Rounding.round b) = true := hm.2 a b h

theorem Rounding.IsMonotone.zero_le_round (hm : Rounding.IsMonotone K) {a : K} (h : 0 ≤ a) :
    le (fin 0) (Rounding.round a) = true := by
  have := hm.2 0 a h
  rwa [hm.1] at this

/-- The quotient `1 / q` is antitone on the non-negative numbers. -/
theorem JSNum.one_div_anti (hm : Rounding.IsMonotone K) {q₁ q₂ : JSNum K}
    (h₀ : le (fin 0) q₁ = true) (h : le q₁ q₂ = true) :
    le (fin 0) (fin 1 / q₂) = true ∧ le (fin 1 / q₂) (fin 1 / q₁) = true := by
  have key : ∀ a : K, 0 ≤ a → le (fin 0) (fin 1 / fin a : JSNum K) = true ∧
      le (fin 1 / fin a : JSNum K) (fin 1 / fin a) = true := by
    intro a ha
    rcases eq_or_lt_of_le ha with h0 | hpos
    · subst h0
      have e : (fin 1 / fin 0 : JSNum K) = posInf := by
        show JSNum.div (fin 1) (fin 0) = posInf
        simp [JSNum.div]
      rw [e]
      exact ⟨rfl, rfl⟩
    · rw [JSNum.fin_div_of_ne _ _ hpos.ne']
      exact ⟨hm.zero_le_round (by positivity), hm.le_round le_rfl⟩
  cases q₁ with
  | fin a =>
    have ha : 0 ≤ a := by simpa using h₀
    cases q₂ with
    | fin b =>
      have hab : a ≤ b := by simpa using h
      have hb : 0 ≤ b := ha.trans hab
      refine ⟨(key b hb).1, ?_⟩
      rcases eq_or_lt_of_le ha with h0 | hpos
      · subst h0
        have e : (fin 1 / fin 0 : JSNum K) = posInf := by
          show JSNum.div (fin 1) (fin 0) = posInf
          simp [JSNum.div]
        rw [e]
        exact JSNum.le_posInf_of_le_self (key b hb).2
      · have hbpos : 0 < b := hpos.trans_le hab
        rw [JSNum.fin_div_of_ne _ _ hpos.ne', JSNum.fin_div_of_ne _ _ hbpos.ne']
        exact hm.le_round (one_div_le_one_div_of_le hpos hab)
    | posInf =>
      have e : (fin 1 / posInf : JSNum K) = fin 0 := rfl
      rw [e]
      exact ⟨by simp, (key a ha).1⟩
    | negInf => simp [JSNum.le] at h
    | nan => simp [JSNum.le] at h
  | posInf =>
    cases q₂ with
    | posInf =>
      have e : (fin 1 / posInf : JSNum K) = fin 0 := rfl
      rw [e]
      exact ⟨by simp, by simp⟩
    | fin b => simp [JSNum.le] at h
    | negInf => simp [JSNum.le] at h
    | nan => simp [JSNum.le] at h
  | negInf => simp [JSNum.le] at h₀
  | nan => simp [JSNum.le] at h₀

/-- The product by a positive finite number is monotone on the non-negative numbers. -/
theorem JSNum.fin_mul_mono (hm : Rounding.IsMonotone K) {H : K} (hH : 0 < H) {c₁ c₂ : JSNum K}
    (h₀ : le (fin 0) c₂ = true) (h : le c₂ c₁ = true) :
    le (fin H * c₂) (fin H * c₁) = true := by
  have hinf : (fin H * posInf : JSNum K) = posInf := by
    show JSNum.mul (fin H) posInf = posInf
    simp [JSNum.mul, JSNum.mulInf, hH.ne', hH, JSNum.inf]
  cases c₂ with
  | fin a =>
    have ha : 0 ≤ a := by simpa using h₀
    cases c₁ with
    | fin b =>
      have hab : a ≤ b := by simpa using h
      exact hm.le_round (mul_le_mul_of_nonneg_left hab hH.le)
    | posInf =>
      rw [hinf]
      exact JSNum.le_posInf_of_le_self (hm.le_round le_rfl)
    | negInf => simp [JSNum.le] at h
    | nan => simp [JSNum.le] at h
  | posInf =>
    cases c₁ with
    | posInf => rw [hinf]; rfl
    | fin b => simp [JSNum.le] at h
    | negInf => simp [JSNum.le] at h
    | nan => simp [JSNum.le] at h
  | negInf => simp [JSNum.le] at h₀
  | nan => simp [JSNum.le] at h₀

/-- For a monotone rounding the value of `distCoef` does not increase with the distance. -/
theorem distCoef_anti (hm : Rounding.IsMonotone K) {z d₁ d₂ : K} (hz : 0 < z) (hd₁ : 0 < d₁)
    (hd : d₁ < d₂) :
    le (fin 0) (fin 1 / (fin d₂ / fin z) : JSNum K) = true ∧
    le (fin 1 / (fin d₂ / fin z) : JSNum K) (fin 1 / (fin d₁ / fin z)) = true := by
  rw [JSNum.fin_div_of_ne _ _ hz.ne', JSNum.fin_div_of_ne _ _ hz.ne']
  exact JSNum.one_div_anti hm (hm.zero_le_round (by positivity))
    (hm.le_round (div_le_div_of_nonneg_right hd.le hz.le))

end MonotoneRounding
/-! ## Claims that depend on the rounding -/

section ClaimsRounding

variable {K : Type} [LinearOrderedField K] [Rounding K]

open JSNum

/-- C1, amended. For every wall `[A, B]` and ray `[C, D]`, `getIntersectionPoint` returns a
hit if and only if the two parameters that it computes, `r` on the ray and `s` on the wall,
are finite and both in the closed interval `[0, 1]`; the returned `r` is the computed `r`
and the returned point is `s (B - A) + A` as computed. When the denominator is not zero and
the computed `r` and `s` are the exact parameters `u` and `t`, there is a hit if and only
if there are `t` and `u` in `[0, 1]` with `A + t (B - A) = C + u (D - C)`, and the returned
`r` is `u`. When no operation rounds this is so, and the hit is exactly that common point,
`(x, y) = C + r (D - C)`. -/
theorem getIntersectionPoint_iff_segments_meet :
    (∀ wall ray : Segment K,
      ((∃ hit, getIntersectionPoint wall ray = some hit) ↔
        ∃ r s : K, computedR wall ray = fin r ∧ computedS wall ray = fin s ∧
          0 ≤ r ∧ r ≤ 1 ∧ 0 ≤ s ∧ s ≤ 1) ∧
      ∀ hit, getIntersectionPoint wall ray = some hit →
        hit.r = computedR wall ray ∧
        hit.x = computedS wall ray * (wall.2.x - wall.1.x) + wall.1.x ∧
        hit.y = computedS wall ray * (wall.2.y - wall.1.y) + wall.1.y) ∧
    (∀ A B C D : K × K, denominator A B C D ≠ 0 →
      computedR (seg A B) (seg C D) = fin (rayParam A B C D) →
      computedS (seg A B) (seg C D) = fin (wallParam A B C D) →
        ((∃ hit, getIntersectionPoint (seg A B) (seg C D) = some hit) ↔
          ∃ t u : K, 0 ≤ t ∧ t ≤ 1 ∧ 0 ≤ u ∧ u ≤ 1 ∧ MeetAt A B C D t u) ∧
        ∀ hit, getIntersectionPoint (seg A B) (seg C D) = some hit →
          ∀ t u : K, MeetAt A B C D t u →
            hit.r = fin u ∧
            hit.x = fin t * (fin B.1 - fin A.1) + fin A.1 ∧
            hit.y = fin t * (fin B.2 - fin A.2) + fin A.2) ∧
    ((∀ q : K, Rounding.round q = fin q) →
      ∀ A B C D : K × K, denominator A B C D ≠ 0 →
        computedR (seg A B) (seg C D) = fin (rayParam A B C D) ∧
        computedS (seg A B) (seg C D) = fin (wallParam A B C D) ∧
        ((∃ hit, getIntersectionPoint (seg A B) (seg C D) = some hit) ↔
          ∃ t u : K, 0 ≤ t ∧ t ≤ 1 ∧ 0 ≤ u ∧ u ≤ 1 ∧ MeetAt A B C D t u) ∧
        ∀ hit, getIntersectionPoint (seg A B) (seg C D) = some hit →
          ∀ t u : K, MeetAt A B C D t u →
            hit.x = fin (A.1 + t * (B.1 - A.1)) ∧ hit.y = fin (A.2 + t * (B.2 - A.2)) ∧
            hit.x = fin (C.1 + u * (D.1 - C.1)) ∧ hit.y = fin (C.2 + u * (D.2 - C.2)) ∧
            hit.r = fin u) := by
  have part₁ : ∀ wall ray : Segment K,
      ((∃ hit, getIntersectionPoint wall ray = some hit) ↔
        ∃ r s : K, computedR wall ray = fin r ∧ computedS wall ray = fin s ∧
          0 ≤ r ∧ r ≤ 1 ∧ 0 ≤ s ∧ s ≤ 1) ∧
      ∀ hit, getIntersectionPoint wall ray = some hit →
        hit.r = computedR wall ray ∧
        hit.x = computedS wall ray * (wall.2.x - wall.1.x) + wall.1.x ∧
        hit.y = computedS wall ray * (wall.2.y - wall.1.y) + wall.1.y := by
    intro wall ray
    refine ⟨⟨?_, ?_⟩, ?_⟩
    · rintro ⟨hit, hh⟩
      rw [getIntersectionPoint_eq] at hh
      split_ifs at hh with hc
      simp only [Bool.and_eq_true] at hc
      obtain ⟨r, hr, hr₀, hr₁⟩ := JSNum.eq_fin_of_ge_of_le hc.1.1.1 hc.1.1.2
      obtain ⟨s, hs, hs₀, hs₁⟩ := JSNum.eq_fin_of_ge_of_le hc.1.2 hc.2
      exact ⟨r, s, hr, hs, hr₀, hr₁, hs₀, hs₁⟩
    · rintro ⟨r, s, hr, hs, hr₀, hr₁, hs₀, hs₁⟩
      rw [getIntersectionPoint_eq, hr, hs]
      simp [hr₀, hr₁, hs₀, hs₁]
    · intro hit hh
      rw [getIntersectionPoint_eq] at hh
      split_ifs at hh with hc
      obtain rfl := Option.some.inj hh
      exact ⟨rfl, rfl, rfl⟩
  refine ⟨part₁, ?_, ?_⟩
  · intro A B C D hd hr hs
    obtain ⟨hiff, hhit⟩ := part₁ (seg A B) (seg C D)
    refine ⟨hiff.trans ⟨?_, ?_⟩, ?_⟩
    · rintro ⟨r, s, er, es, hr₀, hr₁, hs₀, hs₁⟩
      have e₁ : r = rayParam A B C D := JSNum.fin.inj (er.symm.trans hr)
      have e₂ : s = wallParam A B C D := JSNum.fin.inj (es.symm.trans hs)
      subst e₁ e₂
      exact ⟨_, _, hs₀, hs₁, hr₀, hr₁, meetAt_params A B C D hd⟩
    · rintro ⟨t, u, ht₀, ht₁, hu₀, hu₁, hm⟩
      obtain ⟨rfl, rfl⟩ := hm.eq_params hd
      exact ⟨_, _, hr, hs, hu₀, hu₁, ht₀, ht₁⟩
    · intro hit hh t u hm
      obtain ⟨rfl, rfl⟩ := hm.eq_params hd
      obtain ⟨h₁, h₂, h₃⟩ := hhit hit hh
      rw [hr] at h₁
      rw [hs] at h₂ h₃
      exact ⟨h₁, h₂, h₃⟩
  · intro hex A B C D hd
    cases Rounding.eq_exact hex
    have hd' : (D.1 - C.1) * (B.2 - A.2) - (B.1 - A.1) * (D.2 - C.2) ≠ 0 := hd
    refine ⟨?_, ?_, getIntersectionPoint_exact A B C D hd⟩
    · simp only [computedR, computedDenominator, seg, pt, fin_sub, fin_mul,
        JSNum.fin_div _ _ hd', rayParam, denominator]
    · simp only [computedS, computedDenominator, seg, pt, fin_sub, fin_mul,
        JSNum.fin_div _ _ hd', wallParam, denominator]

/-- C3, amended. For every ray, reordering the wall list keeps the slot of the ray absent
or present, and keeps the `r` of a hit; the hit point `(x, y)` is the same too when no two
walls give the ray hits with the same `r` and different points, and so when no operation
rounds and the end points are finite. In particular, when a ray has the hits `h₁` and `h₂`
on two walls and the `r` of `h₁` is less than the `r` of `h₂`, its slot is `h₁` for both
orders of the two walls. -/
theorem findIntersections_perm (settings : GameSettings K) (state : GameState K)
    (walls walls' : List (Segment K)) (hp : walls.Perm walls') :
    (∀ (i : ℕ) (ray : Segment K), state.rays[i]? = some ray →
      ∃ slot slot',
        (findIntersections { settings with walls := walls } state).intersections[i]? =
          some slot ∧
        (findIntersections { settings with walls := walls' } state).intersections[i]? =
          some slot' ∧
        (slot = none ↔ slot' = none) ∧
        ∀ hit hit', slot = some hit → slot' = some hit' →
          hit'.r = hit.r ∧
          ((∀ w₁ ∈ walls, ∀ w₂ ∈ walls, ∀ h₁ h₂, getIntersectionPoint w₁ ray = some h₁ →
              getIntersectionPoint w₂ ray = some h₂ → h₁.r = h₂.r → h₁ = h₂) →
            hit' = hit)) ∧
    (∀ (w₁ w₂ ray : Segment K) (h₁ h₂ : Intersection K),
      getIntersectionPoint w₁ ray = some h₁ →
      getIntersectionPoint w₂ ray = some h₂ →
      lt h₁.r h₂.r = true →
      closestIntersection [w₁, w₂] ray = some h₁ ∧
      closestIntersection [w₂, w₁] ray = some h₁) ∧
    ((∀ q : K, Rounding.round q = fin q) →
      ∀ fwalls fwalls' rays : List ((K × K) × (K × K)), fwalls.Perm fwalls' →
        (findIntersections { settings with walls := segs fwalls' }
            { state with rays := segs rays }).intersections =
          (findIntersections { settings with walls := segs fwalls }
            { state with rays := segs rays }).intersections) := by
  refine ⟨?_, ?_, ?_⟩
  · intro i ray hi
    refine ⟨closestIntersection walls ray, closestIntersection walls' ray,
      by simp [findIntersections, hi], by simp [findIntersections, hi], ?_, ?_⟩
    · rw [closestIntersection_eq_none, closestIntersection_eq_none]
      exact ⟨fun h w hw => h w (hp.mem_iff.mpr hw), fun h w hw => h w (hp.mem_iff.mp hw)⟩
    · intro hit hit' hs hs'
      obtain ⟨⟨wall, hw, hh⟩, c, hc, hmin⟩ := closestIntersection_eq_some hs
      obtain ⟨⟨wall', hw', hh'⟩, c', hc', hmin'⟩ := closestIntersection_eq_some hs'
      obtain ⟨d, hd, hcd⟩ := hmin wall' (hp.mem_iff.mpr hw') hit' hh'
      obtain ⟨d', hd', hcd'⟩ := hmin' wall (hp.mem_iff.mp hw) hit hh
      have e₁ : d = c' := JSNum.fin.inj (hd.symm.trans hc')
      have e₂ : d' = c := JSNum.fin.inj (hd'.symm.trans hc)
      have hcc : c = c' := le_antisymm (e₁ ▸ hcd) (e₂ ▸ hcd')
      have hr : hit'.r = hit.r := by rw [hc, hc', hcc]
      exact ⟨hr, fun huniq =>
        huniq wall' (hp.mem_iff.mpr hw') wall hw hit' hit hh' hh hr⟩
  · intro w₁ w₂ ray h₁ h₂ e₁ e₂ hlt
    obtain ⟨c₁, hc₁, -⟩ := getIntersectionPoint_r_fin e₁
    obtain ⟨c₂, hc₂, -⟩ := getIntersectionPoint_r_fin e₂
    rw [hc₁, hc₂, lt_fin] at hlt
    have hlt' : c₁ < c₂ := of_decide_eq_true hlt
    have hnlt : ¬ c₂ < c₁ := not_lt.mpr hlt'.le
    constructor
    · simp [closestIntersection_eq, e₁, e₂, reduce, closer, hc₁, hc₂, hnlt]
    · simp [closestIntersection_eq, e₁, e₂, reduce, closer, hc₁, hc₂, hlt']
  · intro hex fwalls fwalls' rays hperm
    cases Rounding.eq_exact hex
    exact (findIntersections_perm_exact settings state fwalls fwalls' rays hperm).1

/-- C4, amended. For every wall and ray for which the denominator that the code computes
is exactly zero, `getIntersectionPoint` returns `null`: it does not fail and returns no hit
with a `NaN` or infinite field. When no operation rounds, these are the walls and rays
whose cross product `(D.x-C.x)(B.y-A.y) - (B.x-A.x)(D.y-C.y)` is zero, the parallel and
the collinear ones, overlapping or not. -/
theorem getIntersectionPoint_parallel (wall ray : Segment K)
    (h : computedDenominator wall ray = fin 0) :
    getIntersectionPoint wall ray = none ∧
    ((∀ q : K, Rounding.round q = fin q) →
      ∀ A B C D : K × K,
        computedDenominator (seg A B) (seg C D) = fin (denominator A B C D) ∧
        (denominator A B C D = 0 → getIntersectionPoint (seg A B) (seg C D) = none)) := by
  refine ⟨getIntersectionPoint_of_computedDenominator_eq wall ray h, ?_⟩
  intro hex A B C D
  cases Rounding.eq_exact hex
  exact ⟨rfl, getIntersectionPoint_of_eq A B C D⟩

/-- C6, amended. For a rounding that is monotone, a screen height `H > 0`, a zoom `z > 0`
and two distances `0 < d₁ < d₂`, the strip that `draw3DFrame` fills at `d₁` is at least as
tall as the strip at `d₂`, and its shade is at least the shade at `d₂`, in each channel.
When no operation rounds the heights are `H * (1 / (d / z))`, the shades are
`255 * (1 / (d / z))` and the strip at `d₁` is strictly taller. -/
theorem drawStrip_nearer_taller_brighter (settings : GameSettings K) (i j : ℕ)
    (H z d₁ d₂ : K) (hm : Rounding.IsMonotone K) (hH : 0 < H) (hz : 0 < z) (hd₁ : 0 < d₁)
    (hd : d₁ < d₂) :
    le (drawStrip { settings with screenHeight := fin H, zoom := fin z } j (fin d₂)).height
      (drawStrip { settings with screenHeight := fin H, zoom := fin z } i (fin d₁)).height
        = true ∧
    le (drawStrip { settings with screenHeight := fin H, zoom := fin z } j (fin d₂)).red
      (drawStrip { settings with screenHeight := fin H, zoom := fin z } i (fin d₁)).red
        = true ∧
    le (drawStrip { settings with screenHeight := fin H, zoom := fin z } j (fin d₂)).green
      (drawStrip { settings with screenHeight := fin H, zoom := fin z } i (fin d₁)).green
        = true ∧
    le (drawStrip { settings with screenHeight := fin H, zoom := fin z } j (fin d₂)).blue
      (drawStrip { settings with screenHeight := fin H, zoom := fin z } i (fin d₁)).blue
        = true ∧
    ((∀ q : K, Rounding.round q = fin q) →
      (drawStrip { settings with screenHeight := fin H, zoom := fin z } i (fin d₁)).height =
        fin (H * (1 / (d₁ / z))) ∧
      (drawStrip { settings with screenHeight := fin H, zoom := fin z } j (fin d₂)).height =
        fin (H * (1 / (d₂ / z))) ∧
      (drawStrip { settings with screenHeight := fin H, zoom := fin z } i (fin d₁)).red =
        fin (255 * (1 / (d₁ / z))) ∧
      (drawStrip { settings with screenHeight := fin H, zoom := fin z } j (fin d₂)).red =
        fin (255 * (1 / (d₂ / z))) ∧
      H * (1 / (d₂ / z)) < H * (1 / (d₁ / z)) ∧
      lt (drawStrip { settings with screenHeight := fin H, zoom := fin z } j (fin d₂)).height
        (drawStrip { settings with screenHeight := fin H, zoom := fin z } i (fin d₁)).height
          = true) := by
  obtain ⟨h₀, h₁⟩ := distCoef_anti hm hz hd₁ hd
  have hs : le (fin 255 * (fin 1 / (fin d₂ / fin z)) : JSNum K)
      (fin 255 * (fin 1 / (fin d₁ / fin z))) = true :=
    JSNum.fin_mul_mono hm (by norm_num) h₀ h₁
  refine ⟨JSNum.fin_mul_mono hm hH h₀ h₁, hs, hs, hs, ?_⟩
  intro hex
  cases Rounding.eq_exact hex
  obtain ⟨e₁, e₂, e₃, e₄, e₅, -, e₇, -⟩ :=
    drawStrip_exact settings i j H z d₁ d₂ hH hz hd₁ hd
  exact ⟨e₁, e₂, e₃, e₄, e₅, e₇⟩

end ClaimsRounding
section Movement

variable {K : Type} [LinearOrderedField K]

/-- The error of an addition followed by the subtraction of the same number, when each
of the two results has a relative error of at most `u`. -/
theorem abs_roundtrip_le {u p δ p₁ p₂ : K} (hu : 0 ≤ u)
    (e₁ : |p₁ - (p + δ)| ≤ u * |p + δ|) (e₂ : |p₂ - (p₁ - δ)| ≤ u * |p₁ - δ|) :
    |p₂ - p| ≤ u * ((1 + u) * |p + δ| + |p|) := by
  have h₁ : |p₁ - δ| ≤ |p| + u * |p + δ| := by
    have : p₁ - δ = p + (p₁ - (p + δ)) := by ring
    rw [this]
    exact (abs_add _ _).trans (by linarith)
  have h₂ : |p₂ - p| ≤ |p₂ - (p₁ - δ)| + |p₁ - (p + δ)| := by
    have : p₂ - p = (p₂ - (p₁ - δ)) + (p₁ - (p + δ)) := by ring
    rw [this]
    exact abs_add _ _
  have h₃ : u * |p₁ - δ| ≤ u * (|p| + u * |p + δ|) := mul_le_mul_of_nonneg_left h₁ hu
  calc |p₂ - p| ≤ |p₂ - (p₁ - δ)| + |p₁ - (p + δ)| := h₂
    _ ≤ u * (|p| + u * |p + δ|) + u * |p + δ| := by linarith
    _ = u * ((1 + u) * |p + δ| + |p|) := by ring

end Movement

section ClaimsMovement

variable {K : Type} [LinearOrderedField K] [Rounding K]

open JSNum

/-- C9, amended. For every finite position `(x, y)`, angle `a`, move speed `v` and rotate
speed `w`: the key `ArrowUp` adds `(d, -e)` to the position and the key `ArrowDown` adds
`(-d, e)`, the exact negation, where `d = v * cos a` and `e = v * sin a` as computed, both
with the angle unchanged; `ArrowUp` followed by `ArrowDown` gives the position
`((x + d) - d, (y - e) + e)` and `ArrowLeft` followed by `ArrowRight` the angle
`(a - w) + w`, each operation rounded. These are the original values when no operation
rounds, and otherwise within the rounding error: when each of the two operations has a
relative error of at most `u`, the result differs from the original `p` by at most
`u ((1 + u) |q| + |p|)`, where `q` is the exact value of the first operation. -/
theorem handlePlayerMovement_inverse (cos sin : K → K) (settings : GameSettings K)
    (state : GameState K) (x y a v w : K) :
    (handlePlayerMovement cos sin
        { settings with playerMoveSpeed := fin v, playerRotateSpeed := fin w }
        KeyCode.ArrowUp
        { state with player := { position := pt x y, angle := fin a } }).player =
      { position := ⟨fin x + fin v * fin (cos a), fin y - fin v * fin (sin a)⟩,
        angle := fin a } ∧
    (handlePlayerMovement cos sin
        { settings with playerMoveSpeed := fin v, playerRotateSpeed := fin w }
        KeyCode.ArrowDown
        { state with player := { position := pt x y, angle := fin a } }).player =
      { position := ⟨fin x - fin v * fin (cos a), fin y + fin v * fin (sin a)⟩,
        angle := fin a } ∧
    (handlePlayerMovement cos sin
        { settings with playerMoveSpeed := fin v, playerRotateSpeed := fin w }
        KeyCode.ArrowDown
        (handlePlayerMovement cos sin
        { settings with playerMoveSpeed := fin v, playerRotateSpeed := fin w }
        KeyCode.ArrowUp
        { state with player := { position := pt x y, angle := fin a } })).player =
      { position := ⟨fin x + fin v * fin (cos a) - fin v * fin (cos a),
          fin y - fin v * fin (sin a) + fin v * fin (sin a)⟩,
        angle := fin a } ∧
    (handlePlayerMovement cos sin
        { settings with playerMoveSpeed := fin v, playerRotateSpeed := fin w }
        KeyCode.ArrowRight
        (handlePlayerMovement cos sin
        { settings with playerMoveSpeed := fin v, playerRotateSpeed := fin w }
        KeyCode.ArrowLeft
        { state with player := { position := pt x y, angle := fin a } })).player =
      { position := pt x y, angle := fin a - fin w + fin w } ∧
    (handlePlayerMovement cos sin
        { settings with playerMoveSpeed := fin v, playerRotateSpeed := fin w }
        KeyCode.ArrowLeft
        (handlePlayerMovement cos sin
        { settings with playerMoveSpeed := fin v, playerRotateSpeed := fin w }
        KeyCode.ArrowRight
        { state with player := { position := pt x y, angle := fin a } })).player =
      { position := pt x y, angle := fin a + fin w - fin w } ∧
    ((∀ q : K, Rounding.round q = fin q) →
      handlePlayerMovement cos sin
        { settings with playerMoveSpeed := fin v, playerRotateSpeed := fin w }
        KeyCode.ArrowDown
        (handlePlayerMovement cos sin
        { settings with playerMoveSpeed := fin v, playerRotateSpeed := fin w }
        KeyCode.ArrowUp
        { state with player := { position := pt x y, angle := fin a } }) =
        { state with player := { position := pt x y, angle := fin a } } ∧
      handlePlayerMovement cos sin
        { settings with playerMoveSpeed := fin v, playerRotateSpeed := fin w }
        KeyCode.ArrowRight
        (handlePlayerMovement cos sin
        { settings with playerMoveSpeed := fin v, playerRotateSpeed := fin w }
        KeyCode.ArrowLeft
        { state with player := { position := pt x y, angle := fin a } }) =
        { state with player := { position := pt x y, angle := fin a } } ∧
      handlePlayerMovement cos sin
        { settings with playerMoveSpeed := fin v, playerRotateSpeed := fin w }
        KeyCode.ArrowLeft
        (handlePlayerMovement cos sin
        { settings with playerMoveSpeed := fin v, playerRotateSpeed := fin w }
        KeyCode.ArrowRight
        { state with player := { position := pt x y, angle := fin a } }) =
        { state with player := { position := pt x y, angle := fin a } }) ∧
    (∀ u δ x₁ x₂ : K, 0 ≤ u → fin v * fin (cos a) = fin δ →
      fin x + fin δ = fin x₁ → fin x₁ - fin δ = fin x₂ →
      |x₁ - (x + δ)| ≤ u * |x + δ| → |x₂ - (x₁ - δ)| ≤ u * |x₁ - δ| →
      (handlePlayerMovement cos sin
        { settings with playerMoveSpeed := fin v, playerRotateSpeed := fin w }
        KeyCode.ArrowDown
        (handlePlayerMovement cos sin
        { settings with playerMoveSpeed := fin v, playerRotateSpeed := fin w }
        KeyCode.ArrowUp
        { state with player := { position := pt x y, angle := fin a } })).player.position.x = fin x₂ ∧
      |x₂ - x| ≤ u * ((1 + u) * |x + δ| + |x|)) ∧
    (∀ u ε y₁ y₂ : K, 0 ≤ u → fin v * fin (sin a) = fin ε →
      fin y - fin ε = fin y₁ → fin y₁ + fin ε = fin y₂ →
      |y₁ - (y - ε)| ≤ u * |y - ε| → |y₂ - (y₁ + ε)| ≤ u * |y₁ + ε| →
      (handlePlayerMovement cos sin
        { settings with playerMoveSpeed := fin v, playerRotateSpeed := fin w }
        KeyCode.ArrowDown
        (handlePlayerMovement cos sin
        { settings with playerMoveSpeed := fin v, playerRotateSpeed := fin w }
        KeyCode.ArrowUp
        { state with player := { position := pt x y, angle := fin a } })).player.position.y = fin y₂ ∧
      |y₂ - y| ≤ u * ((1 + u) * |y - ε| + |y|)) ∧
    (∀ u a₁ a₂ : K, 0 ≤ u →
      fin a - fin w = fin a₁ → fin a₁ + fin w = fin a₂ →
      |a₁ - (a - w)| ≤ u * |a - w| → |a₂ - (a₁ + w)| ≤ u * |a₁ + w| →
      (handlePlayerMovement cos sin
        { settings with playerMoveSpeed := fin v, playerRotateSpeed := fin w }
        KeyCode.ArrowRight
        (handlePlayerMovement cos sin
        { settings with playerMoveSpeed := fin v, playerRotateSpeed := fin w }
        KeyCode.ArrowLeft
        { state with player := { position := pt x y, angle := fin a } })).player.angle = fin a₂ ∧
      |a₂ - a| ≤ u * ((1 + u) * |a - w| + |a|)) := by
  refine ⟨rfl, rfl, rfl, rfl, rfl, ?_, ?_, ?_, ?_⟩
  · intro hex
    cases Rounding.eq_exact hex
    obtain ⟨-, -, h₁, h₂, h₃⟩ := handlePlayerMovement_exact cos sin settings state x y a v w
    exact ⟨h₁, h₂, h₃⟩
  · intro u δ x₁ x₂ hu hδ h₁ h₂ e₁ e₂
    refine ⟨?_, abs_roundtrip_le hu e₁ e₂⟩
    show fin x + fin v * fin (cos a) - fin v * fin (cos a) = fin x₂
    rw [hδ, h₁, h₂]
  · intro u ε y₁ y₂ hu hε h₁ h₂ e₁ e₂
    refine ⟨?_, ?_⟩
    · show fin y - fin v * fin (sin a) + fin v * fin (sin a) = fin y₂
      rw [hε, h₁, h₂]
    · have e₁' : |y₁ - (y + -ε)| ≤ u * |y + -ε| := by rwa [← sub_eq_add_neg]
      have e₂' : |y₂ - (y₁ - -ε)| ≤ u * |y₁ - -ε| := by rwa [sub_neg_eq_add]
      have := abs_roundtrip_le hu e₁' e₂'
      rwa [← sub_eq_add_neg] at this
  · intro u a₁ a₂ hu h₁ h₂ e₁ e₂
    refine ⟨?_, ?_⟩
    · show fin a - fin w + fin w = fin a₂
      rw [h₁, h₂]
    · have e₁' : |a₁ - (a + -w)| ≤ u * |a + -w| := by rwa [← sub_eq_add_neg]
      have e₂' : |a₂ - (a₁ - -w)| ≤ u * |a₁ - -w| := by rwa [sub_neg_eq_add]
      have := abs_roundtrip_le hu e₁' e₂'
      rwa [← sub_eq_add_neg] at this

end ClaimsMovement
section Binary64Claims

open JSNum

/-- C1, as stated, fails in the binary64 arithmetic. The wall `(0.3,2.6)-(0,1.1)` and the
ray `(2.8,0.5)-(0,1.1)` meet at `t = u = 1`, their common end point, and the denominator is
not zero, but the code computes `r = 1 + 2^(-52)`, printed `1.0000000000000002`, and
returns `null`. The wall
`(0,0.5)-(1.8,2)` and the ray `(0.8,2)-(0.6,1)` give the hit `(0.6, 1)` with `r = 1`, but
the segments do not meet: the exact parameter of the ray is greater than `1`. -/
theorem getIntersectionPoint_binary64_not_iff :
    (MeetAt (K := Double) (Double.ofRat (3 / 10), Double.ofRat (26 / 10))
        (0, Double.ofRat (11 / 10)) (Double.ofRat (28 / 10), Double.ofRat (5 / 10))
        (0, Double.ofRat (11 / 10)) 1 1 ∧
      denominator (K := Double) (Double.ofRat (3 / 10), Double.ofRat (26 / 10))
        (0, Double.ofRat (11 / 10)) (Double.ofRat (28 / 10), Double.ofRat (5 / 10))
        (0, Double.ofRat (11 / 10)) ≠ 0 ∧
      computedR (K := Double)
        (seg (Double.ofRat (3 / 10), Double.ofRat (26 / 10)) (0, Double.ofRat (11 / 10)))
        (seg (Double.ofRat (28 / 10), Double.ofRat (5 / 10)) (0, Double.ofRat (11 / 10))) =
        fin (1 + 1 / 2 ^ 52) ∧
      getIntersectionPoint (K := Double)
        (seg (Double.ofRat (3 / 10), Double.ofRat (26 / 10)) (0, Double.ofRat (11 / 10)))
        (seg (Double.ofRat (28 / 10), Double.ofRat (5 / 10)) (0, Double.ofRat (11 / 10))) =
        none) ∧
    (denominator (K := Double) (0, Double.ofRat (5 / 10)) (Double.ofRat (18 / 10), 2)
        (Double.ofRat (8 / 10), 2) (Double.ofRat (6 / 10), 1) ≠ 0 ∧
      getIntersectionPoint (K := Double)
        (seg (0, Double.ofRat (5 / 10)) (Double.ofRat (18 / 10), 2))
        (seg (Double.ofRat (8 / 10), 2) (Double.ofRat (6 / 10), 1)) =
        some { x := fin (Double.ofRat (6 / 10)), y := fin 1, r := fin 1 } ∧
      ¬ ∃ t u : Double, 0 ≤ t ∧ t ≤ 1 ∧ 0 ≤ u ∧ u ≤ 1 ∧
        MeetAt (0, Double.ofRat (5 / 10)) (Double.ofRat (18 / 10), 2)
          (Double.ofRat (8 / 10), 2) (Double.ofRat (6 / 10), 1) t u) := by
  refine ⟨⟨by decide!, by decide!, by decide!, by decide!⟩, by decide!, by decide!, ?_⟩
  rintro ⟨t, u, -, -, -, hu, hm⟩
  have hd : denominator (K := Double) (0, Double.ofRat (5 / 10)) (Double.ofRat (18 / 10), 2)
      (Double.ofRat (8 / 10), 2) (Double.ofRat (6 / 10), 1) ≠ 0 := by decide!
  have hr : (1 : Double) < rayParam (0, Double.ofRat (5 / 10)) (Double.ofRat (18 / 10), 2)
      (Double.ofRat (8 / 10), 2) (Double.ofRat (6 / 10), 1) := by decide!
  rw [(hm.eq_params hd).2] at hu
  exact absurd hu (not_le.mpr hr)

/-- C1, amended, in the binary64 arithmetic. On the wall `(0,0)-(0,300)` and the ray
`(75,100)-(0,100)` the computed parameters are `r = 1` and `s`, the binary64 number nearest
to `1/3`, and the hit is the point `(0, 100)` with `r = 1`. On the same wall and the ray
`(75,150)-(0,150)` the computed parameters are the exact ones, `r = 1` and `s = 1/2`, and
the hit is the point `(0, 150)`. -/
theorem getIntersectionPoint_iff_segments_meet_witness :
    getIntersectionPoint (K := Double) (seg (0, 0) (0, 300)) (seg (75, 100) (0, 100)) =
        some { x := fin 0, y := fin 100, r := fin 1 } ∧
      (∃ hit, getIntersectionPoint (K := Double) (seg (0, 0) (0, 300))
        (seg (75, 100) (0, 100)) = some hit) ∧
      getIntersectionPoint (K := Double) (seg (0, 0) (0, 300)) (seg (75, 150) (0, 150)) =
        some { x := fin 0, y := fin 150, r := fin 1 } ∧
      ∃ t u : Double, 0 ≤ t ∧ t ≤ 1 ∧ 0 ≤ u ∧ u ≤ 1 ∧
        MeetAt (0, 0) (0, 300) (75, 150) (0, 150) t u :=
  ⟨by decide!,
   ((getIntersectionPoint_iff_segments_meet (K := Double)).1 (seg (0, 0) (0, 300))
      (seg (75, 100) (0, 100))).1.mpr
    ⟨(1 : Double), Double.ofRat (1 / 3), by decide!, by decide!,
      (by decide! : (0 : Double) ≤ 1), (by decide! : (1 : Double) ≤ 1),
      (by decide! : (0 : Double) ≤ Double.ofRat (1 / 3)),
      (by decide! : Double.ofRat (1 / 3) ≤ 1)⟩,
   by decide!,
   ((getIntersectionPoint_iff_segments_meet (K := Double)).2.1 (0, 0) (0, 300) (75, 150)
      (0, 150) (by decide!) (by decide!) (by decide!)).1.mp
    ⟨{ x := fin 0, y := fin 150, r := fin 1 }, by decide!⟩⟩

/-- C3, as stated, fails in the binary64 arithmetic. The ray `(6,6)-(5,1)` hits the walls
`(1,5)-(9,5)` and `(1,5)-(25,5)` with the same `r`, the binary64 number nearest to `0.2`;
the point is computed from the parameter `s` of the wall that is kept, the first one of
the list: `x` is the binary64 number nearest to `5.8` with the walls in this order and the
next binary64 number, printed `5.800000000000001`, with the walls in the other order. -/
theorem findIntersections_binary64_order :
    [((pt 1 5, pt 9 5) : Segment Double), (pt 1 5, pt 25 5)].Perm
        [(pt 1 5, pt 25 5), (pt 1 5, pt 9 5)] ∧
      (findIntersections
          { gameSettings Double.pi with walls := [(pt 1 5, pt 9 5), (pt 1 5, pt 25 5)] }
          { gameState Double.pi with rays := [(pt 6 6, pt 5 1)] }).intersections =
        [some { x := fin (Double.ofRat (58 / 10)), y := fin 5,
                r := fin (Double.ofRat (2 / 10)) }] ∧
      (findIntersections
          { gameSettings Double.pi with walls := [(pt 1 5, pt 25 5), (pt 1 5, pt 9 5)] }
          { gameState Double.pi with rays := [(pt 6 6, pt 5 1)] }).intersections =
        [some { x := fin (Double.ofRat (58 / 10) + 1 / 2 ^ 50), y := fin 5,
                r := fin (Double.ofRat (2 / 10)) }] ∧
      Double.ofRat (58 / 10) + 1 / 2 ^ 50 = Double.ofRat (5800000000000001 / 10 ^ 15) ∧
      Double.ofRat (58 / 10) ≠ Double.ofRat (58 / 10) + 1 / 2 ^ 50 :=
  ⟨List.Perm.swap _ _ _, by decide!, by decide!, by decide!, by decide!⟩

/-- C3, amended, in the binary64 arithmetic on the ray `(6,6)-(5,1)` and the walls
`(1,5)-(9,5)` and `(1,5)-(25,5)` in the two orders: the two slots are hits. -/
theorem findIntersections_perm_witness :
    [((pt 1 5, pt 9 5) : Segment Double), (pt 1 5, pt 25 5)].Perm
        [(pt 1 5, pt 25 5), (pt 1 5, pt 9 5)] ∧
      ∃ slot slot',
        (findIntersections
          { gameSettings Double.pi with walls := [(pt 1 5, pt 9 5), (pt 1 5, pt 25 5)] }
          { gameState Double.pi with rays := [(pt 6 6, pt 5 1)] }).intersections[0]? =
          some slot ∧
        (findIntersections
          { gameSettings Double.pi with walls := [(pt 1 5, pt 25 5), (pt 1 5, pt 9 5)] }
          { gameState Double.pi with rays := [(pt 6 6, pt 5 1)] }).intersections[0]? =
          some slot' ∧
        (slot = none ↔ slot' = none) :=
  ⟨List.Perm.swap _ _ _, by
    obtain ⟨slot, slot', h₁, h₂, h₃, -⟩ :=
      (findIntersections_perm (gameSettings Double.pi)
        { gameState Double.pi with rays := [(pt 6 6, pt 5 1)] }
        [(pt 1 5, pt 9 5), (pt 1 5, pt 25 5)] [(pt 1 5, pt 25 5), (pt 1 5, pt 9 5)]
        (List.Perm.swap _ _ _)).1 0 (pt 6 6, pt 5 1) rfl
    exact ⟨slot, slot', h₁, h₂, h₃⟩⟩

/-- C4, as stated, fails in the binary64 arithmetic. The wall `(5,10)-(0,15·2^(-54))` and
the ray `(1,2)-(0,3·2^(-54))` are parallel, their cross product is zero, but the
denominator that the code computes is `2^(-49)` and the code returns the hit
`(2.5, 5)` with `r = 0`. -/
theorem getIntersectionPoint_binary64_parallel_hit :
    denominator (K := Double) (5, 10) (0, 15 / 2 ^ 54) (1, 2) (0, 3 / 2 ^ 54) = 0 ∧
      computedDenominator (K := Double) (seg (5, 10) (0, 15 / 2 ^ 54))
        (seg (1, 2) (0, 3 / 2 ^ 54)) = fin (1 / 2 ^ 49) ∧
      getIntersectionPoint (K := Double) (seg (5, 10) (0, 15 / 2 ^ 54))
        (seg (1, 2) (0, 3 / 2 ^ 54)) = some { x := fin (5 / 2), y := fin 5, r := fin 0 } :=
  ⟨by decide!, by decide!, by decide!⟩

/-- C4, amended, in the binary64 arithmetic on the wall `(0,0)-(0,300)` and the collinear,
overlapping ray `(0,100)-(0,200)`. -/
theorem getIntersectionPoint_parallel_witness :
    computedDenominator (K := Double) (seg (0, 0) (0, 300)) (seg (0, 100) (0, 200)) = fin 0 ∧
      getIntersectionPoint (K := Double) (seg (0, 0) (0, 300)) (seg (0, 100) (0, 200)) = none :=
  ⟨by decide!, (getIntersectionPoint_parallel (K := Double) _ _ (by decide!)).1⟩

/-- C6, as stated, fails in the binary64 arithmetic. With the settings of the source, at
the distance `32.03125` and at the next binary64 number the two strips have the same
height, printed `156.09756097560975`: the nearer one is not strictly taller. -/
theorem drawStrip_binary64_same_height :
    (32 + 1 / 32 : Double) < 32 + 1 / 32 + 1 / 2 ^ 47 ∧
      (drawStrip (gameSettings Double.pi) 0 (fin (32 + 1 / 32))).height =
        fin (Double.ofRat (15609756097560975 / 10 ^ 14)) ∧
      (drawStrip (gameSettings Double.pi) 1 (fin (32 + 1 / 32 + 1 / 2 ^ 47))).height =
        fin (Double.ofRat (15609756097560975 / 10 ^ 14)) ∧
      lt (drawStrip (gameSettings Double.pi) 1 (fin (32 + 1 / 32 + 1 / 2 ^ 47))).height
        (drawStrip (gameSettings Double.pi) 0 (fin (32 + 1 / 32))).height = false :=
  ⟨by decide!, by decide!, by decide!, by decide!⟩

/-- C6, amended, in the binary64 arithmetic, for the screen height `200`, the zoom `25`
and the distances `32.03125` and the next binary64 number. -/
theorem drawStrip_nearer_taller_brighter_witness :
    (0 : Double) < 200 ∧ (0 : Double) < 25 ∧ (0 : Double) < 32 + 1 / 32 ∧
      (32 + 1 / 32 : Double) < 32 + 1 / 32 + 1 / 2 ^ 47 ∧
      le (drawStrip { gameSettings Double.pi with screenHeight := fin 200, zoom := fin 25 } 1
          (fin (32 + 1 / 32 + 1 / 2 ^ 47))).height
        (drawStrip { gameSettings Double.pi with screenHeight := fin 200, zoom := fin 25 } 0
          (fin (32 + 1 / 32))).height = true :=
  ⟨by decide!, by decide!, by decide!, by decide!,
   (drawStrip_nearer_taller_brighter (gameSettings Double.pi) 0 1 200 25 (32 + 1 / 32)
    (32 + 1 / 32 + 1 / 2 ^ 47) Double.isMonotone (by decide!) (by decide!) (by decide!)
    (by decide!)).1⟩

/-- C9, as stated, fails in the binary64 arithmetic. From `x = 0.1` with the move speed
`2` and the angle `0`, `ArrowUp` followed by `ArrowDown` gives `x = 0.1 + 3·2^(-55)`,
printed `0.10000000000000009`; from the angle `0.1` with the rotate speed `1`,
`ArrowLeft` followed by `ArrowRight` gives the angle `0.1 - 2^(-55)`, printed
`0.09999999999999998`. -/
theorem handlePlayerMovement_binary64_not_inverse :
    (handlePlayerMovement (fun _ => (1 : Double)) (fun _ => (0 : Double))
        (gameSettings Double.pi) KeyCode.ArrowDown
        (handlePlayerMovement (fun _ => (1 : Double)) (fun _ => (0 : Double))
          (gameSettings Double.pi) KeyCode.ArrowUp
          { gameState Double.pi with
            player := { position := pt (Double.ofRat (1 / 10)) 100, angle := fin 0 } })
      ).player.position.x = fin (Double.ofRat (1 / 10) + 3 / 2 ^ 55) ∧
    Double.ofRat (1 / 10) + 3 / 2 ^ 55 = Double.ofRat (10000000000000009 / 10 ^ 17) ∧
    Double.ofRat (1 / 10) + 3 / 2 ^ 55 ≠ Double.ofRat (1 / 10) ∧
    (handlePlayerMovement (fun _ => (1 : Double)) (fun _ => (0 : Double))
        { gameSettings Double.pi with playerRotateSpeed := fin 1 } KeyCode.ArrowRight
        (handlePlayerMovement (fun _ => (1 : Double)) (fun _ => (0 : Double))
          { gameSettings Double.pi with playerRotateSpeed := fin 1 } KeyCode.ArrowLeft
          { gameState Double.pi with
            player := { position := pt 75 100, angle := fin (Double.ofRat (1 / 10)) } })
      ).player.angle = fin (Double.ofRat (1 / 10) - 1 / 2 ^ 55) ∧
    Double.ofRat (1 / 10) - 1 / 2 ^ 55 = Double.ofRat (9999999999999998 / 10 ^ 17) ∧
    Double.ofRat (1 / 10) - 1 / 2 ^ 55 ≠ Double.ofRat (1 / 10) :=
  ⟨by decide!, by decide!, by decide!, by decide!, by decide!, by decide!⟩

/-- C9, amended, in the binary64 arithmetic from `x = 0.1` with the move speed `2` and
the angle `0`: `ArrowUp` followed by `ArrowDown` gives `x = 0.1 + 3·2^(-55)`, within the
bound for the relative error `u = 2^(-53)` of the two operations. -/
theorem handlePlayerMovement_inverse_witness :
    (handlePlayerMovement (fun _ => (1 : Double)) (fun _ => (0 : Double))
        { gameSettings Double.pi with playerMoveSpeed := fin 2, playerRotateSpeed := fin 1 }
        KeyCode.ArrowDown
        (handlePlayerMovement (fun _ => (1 : Double)) (fun _ => (0 : Double))
          { gameSettings Double.pi with playerMoveSpeed := fin 2, playerRotateSpeed := fin 1 }
          KeyCode.ArrowUp
          { gameState Double.pi with
            player := { position := pt (Double.ofRat (1 / 10)) 100, angle := fin 0 } })
      ).player.position.x = fin (Double.ofRat (1 / 10) + 3 / 2 ^ 55) ∧
    |Double.ofRat (1 / 10) + 3 / 2 ^ 55 - Double.ofRat (1 / 10)| ≤
      1 / 2 ^ 53 * ((1 + 1 / 2 ^ 53) * |Double.ofRat (1 / 10) + 2| + |Double.ofRat (1 / 10)|) :=
  (handlePlayerMovement_inverse (K := Double) (fun _ => 1) (fun _ => 0) (gameSettings Double.pi)
    (gameState Double.pi) (Double.ofRat (1 / 10)) 100 0 2 1).2.2.2.2.2.2.1
    (1 / 2 ^ 53) 2 (Double.ofRat (21 / 10)) (Double.ofRat (1 / 10) + 3 / 2 ^ 55)
    (by decide! : (0 : Double) ≤ 1 / 2 ^ 53) (by decide!) (by decide!) (by decide!)
    (by decide! : |Double.ofRat (21 / 10) - (Double.ofRat (1 / 10) + 2)| ≤
      1 / 2 ^ 53 * |Double.ofRat (1 / 10) + 2|)
    (by decide! : |Double.ofRat (1 / 10) + 3 / 2 ^ 55 - (Double.ofRat (21 / 10) - 2)| ≤
      1 / 2 ^ 53 * |Double.ofRat (21 / 10) - 2|)

end Binary64Claims

/-- C10. With the walls, the player and the ray settings of the source, over the real
numbers with the real cosine, sine and `π`, `generateRays` followed by `findIntersections`
gives 100 slots, none of them `null`: for every index `i < 100` the slot is a hit with
finite coordinates and a finite `r` in `[0, 1]`. -/
theorem gameSettings_every_ray_hits :
    (findIntersections (gameSettings Real.pi)
        (generateRays Real.cos Real.sin (gameSettings Real.pi)
          (gameState Real.pi))).intersections.length = 100 ∧
    ∀ i, i < 100 → ∃ x y r : ℝ,
      (findIntersections (gameSettings Real.pi)
        (generateRays Real.cos Real.sin (gameSettings Real.pi)
          (gameState Real.pi))).intersections[i]? =
        some (some { x := JSNum.fin x, y := JSNum.fin y, r := JSNum.fin r }) ∧
      0 ≤ r ∧ r ≤ 1 := by
  have hrays := generateRays_rays_eq Real.cos Real.sin (gameSettings Real.pi)
    (gameState Real.pi) 75 100 (15 / 10 * Real.pi) (27 / 100 * Real.pi) 250 100 (by norm_num)
  have hrays' : (generateRays Real.cos Real.sin (gameSettings Real.pi)
      (gameState Real.pi)).rays = _ := hrays
  simp only [findIntersections, hrays', List.length_map, List.length_range, true_and]
  intro i hi
  have hey : (300 : ℝ) < 100 - 250 *
      Real.sin (rayAngle (15 / 10 * Real.pi) (27 / 100 * Real.pi) 100 i) := by
    have := sin_rayAngle_lt i hi
    linarith
  obtain ⟨x, y, r, hc, hr₀, hr₁⟩ := closestIntersection_enclosed Real.pi
    (75 + 250 * Real.cos (rayAngle (15 / 10 * Real.pi) (27 / 100 * Real.pi) 100 i)) _ hey
  refine ⟨x, y, r, ?_, hr₀, hr₁⟩
  simp only [List.getElem?_map, List.getElem?_range hi, Option.map_some', hc]

end Pseudo3D
